import Mathlib

/-!
# cpr, the ceph placement group raiser

A shallow embedding of `main.go`: the health gate `healthy`, the parameter read
`get`, one tick of the convergence driver `raise`, the polling loop `run`, the
check `powerOfTwo` of the target and the two phases of `main`.

The program talks to the outside world through `execCommand` and decodes what
it gets back with `encoding/json`.  Both are library code: they are fields of a
`Runtime` record that every function below takes as an argument.  Effects
(commands issued, sends on the `done` channel, sleeps) are recorded on a trace.
Log output is not recorded; the `verbose` flag only adds log lines.
-/

namespace Cpr

/-! ## Values shared with the Go runtime -/

/-- Go `error` values, identified with their message. -/
abbrev Error := String

/-- Smallest `int64`. -/
def minInt64 : Int := -9223372036854775808

/-- Largest `int64`. -/
def maxInt64 : Int := 9223372036854775807

/-- Two's complement wrap-around of a mathematical integer into `int64`. -/
def wrapInt64 (x : Int) : Int :=
  (x + 9223372036854775808) % 18446744073709551616 - 9223372036854775808

/-- One entry of `Health.Checks`: the anonymous struct with the single field
`Status` tagged `json:"severity"`. -/
structure Check where
  Status : String
deriving DecidableEq, Repr

/-- The anonymous struct behind `Health.Checks`: the four tracked sub-checks. -/
structure HealthChecks where
  Availability : Check
  Degraded : Check
  SlowRequest : Check
  Misplaced : Check
deriving DecidableEq, Repr

/-- The struct `Health`: the cluster health status. -/
structure Health where
  Checks : HealthChecks
  Status : String
deriving DecidableEq, Repr

/-- The zero value `var h Health`. -/
def Health.zero : Health := ⟨⟨⟨""⟩, ⟨""⟩, ⟨""⟩, ⟨""⟩⟩, ""⟩

/-- A dynamic value as `json.Unmarshal` stores it in an `interface{}`.  A JSON
number is stored as a `float64`, kept here as the rational it denotes. -/
inductive Value where
  | float64 (x : ℚ)
  | string (s : String)
  | bool (b : Bool)
  | null
  | array
  | object

/-- The three command lines the program runs.
* `health` is `ceph health -f json`;
* `poolGet pool pgType` is `ceph osd pool get pool pgType -f json`;
* `poolSet pool pgType nPg` is `ceph osd pool set pool pgType n` where `n` is
  `strconv.FormatInt(nPg, 10)`. -/
inductive Cmd where
  | health
  | poolGet (pool pgType : String)
  | poolSet (pool pgType : String) (nPg : Int)
deriving DecidableEq, Repr

/-- What the program does to the outside world, in order. -/
inductive Event where
  /-- The call `execCommand(command, args...).CombinedOutput()` inside `runCmd`. -/
  | exec (c : Cmd)
  /-- The send `done <- true` completed. -/
  | send
  /-- The receive `<-done` taken by the `select` of `run`. -/
  | recv
  /-- The pause `time.Sleep(seconds * time.Second)`. -/
  | sleep (seconds : Nat)
deriving DecidableEq, Repr

/-- A channel of `bool` on which only `true` is ever sent: its capacity and the
number of values it buffers. -/
structure Chan where
  cap : Nat
  len : Nat
deriving DecidableEq, Repr

/-- The library and the outside world, as the program sees them.  `β` is the
type of command output (`[]byte`), `σ` the state of the external system. -/
structure Runtime (β σ : Type) where
  /-- The call `execCommand(command, args...).CombinedOutput()`: output or error, and
  the external system afterwards. -/
  execCommand : Cmd → σ → Except Error β × σ
  /-- The call `json.Unmarshal(j, &h)` for a zero `h Health`. -/
  unmarshalHealth : β → Except Error Health
  /-- The call `json.Unmarshal(b, &m)` for a nil `m map[string]interface{}`; the map is
  given by its lookup function. -/
  unmarshalMap : β → Except Error (String → Option Value)
  /-- The result of `int64(f)` for a `float64` whose truncation is outside the
  `int64` range (implementation dependent in Go); it is read modulo `2^64`. -/
  int64OutOfRange : ℚ → Int

/-- The program state that is not a local variable: the external system and
the trace of effects so far, oldest first. -/
structure State (σ : Type) where
  world : σ
  trace : List Event

/-- How a call ends. -/
inductive Ret (α : Type) where
  /-- The function returned `v`. -/
  | returned (v : α)
  /-- A `log.Fatalf`: the process exits with code 1. -/
  | fatal
  /-- The goroutine blocks forever on a channel send. -/
  | blocked
  /-- A run-time panic (failed type assertion). -/
  | panic

/-- The command line flags `pool`, `delta`, `target` and `verbose`. -/
structure Flags where
  pool : String
  delta : Int
  target : Int
  verbose : Bool

/-! ## The program -/

/-- The function `healthy` reports if the cluster is in healthy state for raising placement
groups; `none` is the `log.Fatalf` on a snapshot that does not unmarshal. -/
def healthy {β σ : Type} (rt : Runtime β σ) (j : β) : Option Bool :=
  match rt.unmarshalHealth j with
  | .error _ => none
  | .ok h =>
    -- cluster overall health
    if h.Status = "HEALTH_OK" then some true
    else if h.Status = "HEALTH_ERR" then some false
    else
      let c := h.Checks
      if c.Availability.Status = "HEALTH_WARN" then some false
      else if c.Degraded.Status = "HEALTH_WARN" then some false
      else if c.SlowRequest.Status = "HEALTH_WARN" then some false
      else if c.Misplaced.Status = "HEALTH_WARN" then some false
      else some true

/-- The function `runCmd` runs the command line, returning its output or an error. -/
def runCmd {β σ : Type} (rt : Runtime β σ) (c : Cmd) (s : State σ) :
    Except Error β × State σ :=
  match rt.execCommand c s.world with
  | (.error err, w) => (.error err, ⟨w, s.trace ++ [Event.exec c]⟩)
  | (.ok out, w) => (.ok out, ⟨w, s.trace ++ [Event.exec c]⟩)

/-- The conversion `int64(f)` of a `float64`: truncation toward zero.  Out of
range the result is whatever `int64` the platform produces. -/
def int64OfFloat64 {β σ : Type} (rt : Runtime β σ) (x : ℚ) : Int :=
  let t := Int.tdiv x.num x.den
  if minInt64 ≤ t ∧ t ≤ maxInt64 then t else wrapInt64 (rt.int64OutOfRange x)

/-- The function `get` gets the current `pg_num` or `pgp_num` according to the passed
`pgType` of the given pool.  It returns the pair `(value, err)`. -/
def get {β σ : Type} (rt : Runtime β σ) (pool pgType : String) (s : State σ) :
    Ret (Int × Option Error) × State σ :=
  match runCmd rt (Cmd.poolGet pool pgType) s with
  | (.error err, s1) => (.returned (-1, some err), s1)
  | (.ok b, s1) =>
    match rt.unmarshalMap b with
    | .error err => (.returned (-1, some err), s1)
    | .ok m =>
      match m pgType with
      | none => (.returned (-1, some ("Error in getting " ++ pgType ++ " of " ++ pool)), s1)
      | some (Value.float64 x) => (.returned (int64OfFloat64 rt x, none), s1)
      | some _ => (.panic, s1)

/-- The function `raise` raises the placement group of the given pool and pg type by the
given delta: one tick of the driver.  It returns the error of the Go function,
the `done` channel and the state afterwards. -/
def raise {β σ : Type} (rt : Runtime β σ) (pool pgType : String) (target delta : Int)
    (done : Chan) (s : State σ) : Ret (Option Error) × Chan × State σ :=
  match runCmd rt Cmd.health s with
  | (.error err, s1) =>
    (.returned (some ("health: Error reading health status: " ++ err)), done, s1)
  | (.ok h, s1) =>
    match healthy rt h with
    | none => (.fatal, done, s1)
    | some false => (.returned none, done, s1)
    | some true =>
      match get rt pool pgType s1 with
      | (.fatal, s2) => (.fatal, done, s2)
      | (.blocked, s2) => (.blocked, done, s2)
      | (.panic, s2) => (.panic, done, s2)
      | (.returned (_, some err), s2) => (.returned (some err), done, s2)
      | (.returned (cPg, none), s2) =>
        if cPg ≥ target then
          -- done <- true
          if done.len < done.cap then
            (.returned none, ⟨done.cap, done.len + 1⟩, ⟨s2.world, s2.trace ++ [Event.send]⟩)
          else (.blocked, done, s2)
        else
          let nPg := wrapInt64 (cPg + delta)
          let nPg := if nPg > target then target else nPg
          match runCmd rt (Cmd.poolSet pool pgType nPg) s2 with
          | (.error err, s3) => (.returned (some err), done, s3)
          | (.ok _, s3) =>
            (.returned none, done, ⟨s3.world, s3.trace ++ [Event.sleep 40]⟩)

/-- Which case the `select` of `run` takes on one iteration of its loop. -/
inductive Select where
  /-- The case `<-ticker.C`. -/
  | ticker
  /-- The case `<-done`. -/
  | done
  /-- The case `<-c`: an interrupt or SIGTERM arrived. -/
  | signal
deriving DecidableEq, Repr

/-- How `run` ends. -/
inductive RunResult where
  /-- The loop received from `done` and `run` returned. -/
  | returned
  /-- The process exited with this code (`log.Fatalf` or `os.Exit`). -/
  | exit (code : Nat)
  /-- The goroutine blocks forever on `done <- true`. -/
  | blocked
  /-- A run-time panic. -/
  | panic
  /-- The schedule is used up and the loop is still waiting in `select`. -/
  | waiting
deriving DecidableEq, Repr

/-- The `for { select { ... } }` loop of `run`.  The schedule lists, iteration
by iteration, the case the `select` takes.  The case `<-done` can only be
taken when the channel holds a value; an entry `done` met with an empty channel
is passed over, the loop keeps waiting for the next entry. -/
def runLoop {β σ : Type} (rt : Runtime β σ) (fl : Flags) (pgType : String) :
    List Select → Chan → State σ → RunResult × State σ
  | [], _, s => (.waiting, s)
  | Select.ticker :: rest, done, s =>
    match raise rt fl.pool pgType fl.target fl.delta done s with
    | (.returned none, done1, s1) => runLoop rt fl pgType rest done1 s1
    | (.returned (some _), _, s1) => (.exit 1, s1)
    | (.fatal, _, s1) => (.exit 1, s1)
    | (.blocked, _, s1) => (.blocked, s1)
    | (.panic, _, s1) => (.panic, s1)
  | Select.done :: rest, done, s =>
    if 0 < done.len then (.returned, ⟨s.world, s.trace ++ [Event.recv]⟩)
    else runLoop rt fl pgType rest done s
  | Select.signal :: _, _, s => (.exit 1, s)

/-- The function `run` kicks off the process for raising the placement groups: a fresh
`done := make(chan bool, 1)` and the loop. -/
def run {β σ : Type} (rt : Runtime β σ) (fl : Flags) (pgType : String)
    (schedule : List Select) (s : State σ) : RunResult × State σ :=
  runLoop rt fl pgType schedule ⟨1, 0⟩ s

/-- The bit pattern of an `int64` as an unsigned 64-bit number. -/
def toUint64 (x : Int) : Nat :=
  (x % 18446744073709551616).toNat

/-- The operator `&` on `int64`: bitwise and of the two's complement patterns. -/
def and64 (a b : Int) : Int :=
  wrapInt64 (Int.ofNat (toUint64 a &&& toUint64 b))

/-- The function `powerOfTwo` reports whether `n` is a power of two:
`n != 0 && n&(n-1) == 0` in `int64`. -/
def powerOfTwo (n : Int) : Bool :=
  n != 0 && and64 n (wrapInt64 (n - 1)) == 0

/-- The function `main` on parsed flags: the two checks of the flags, the
`pg_num` phase, the pause of 30 seconds and the `pgp_num` phase.  Each phase
has its own schedule; a phase that does not return ends `main` with its
result, and `returned` from the second phase is the exit with code 0. -/
def main {β σ : Type} (rt : Runtime β σ) (fl : Flags) (first second : List Select)
    (s : State σ) : RunResult × State σ :=
  if fl.pool = "" then (.exit 2, s)
  else if !powerOfTwo fl.target then (.exit 2, s)
  else
    match run rt fl "pg_num" first s with
    | (.returned, s1) =>
      run rt fl "pgp_num" second ⟨s1.world, s1.trace ++ [Event.sleep 30]⟩
    | (r, s1) => (r, s1)

/-- The values of the write commands on a trace, in order. -/
def writes : List Event → List Int
  | [] => []
  | Event.exec (Cmd.poolSet _ _ n) :: es => n :: writes es
  | _ :: es => writes es

/-! ## A runtime over parsed JSON documents

Command output given as a JSON document, decoded the way `encoding/json` decodes
into `Health` and into `map[string]interface{}`: object keys are matched to
struct fields up to case, a later duplicate key overrides an earlier one,
`null` leaves the target untouched, unknown keys are skipped and a value of the
wrong JSON type is an error. -/

/-- A JSON document.  A number carries the `float64` it is parsed to. -/
inductive Json where
  | null
  | bool (b : Bool)
  | num (x : ℚ)
  | str (s : String)
  | arr (xs : List Json)
  | obj (kvs : List (String × Json))

/-- The number of binary digits of `a`, for `a` below `2 ^ fuel`. -/
def bitLength : Nat → Nat → Nat
  | 0, _ => 0
  | fuel + 1, a => if a = 0 then 0 else bitLength fuel (a / 2) + 1

/-- The `float64` that `encoding/json` stores for the integer literal `n`: the
nearest number with a significand of 53 bits, ties to the even significand
(integers below `2 ^ 1024` in magnitude). -/
def float64OfInt (n : Int) : ℚ :=
  let a := n.natAbs
  if a < 9007199254740992 then (n : ℚ)
  else
    let e := bitLength 1024 a - 53
    let q := a / 2 ^ e
    let r := a % 2 ^ e
    let half := 2 ^ (e - 1)
    let m := if r > half ∨ (r = half ∧ q % 2 = 1) then q + 1 else q
    if n < 0 then -((m * 2 ^ e : Nat) : ℚ) else ((m * 2 ^ e : Nat) : ℚ)

/-- The JSON number written as the integer literal `n`. -/
def Json.int (n : Int) : Json :=
  Json.num (float64OfInt n)

/-- The case folding of `encoding/json` on the characters that fold to an
ASCII letter: the upper case letters, the long s (U+017F) and the Kelvin sign
(U+212A). -/
def Json.foldChar (c : Char) : Char :=
  if c = Char.ofNat 0x17F then 's'
  else if c = Char.ofNat 0x212A then 'k'
  else c.toLower

/-- Key `key` of a JSON object names the struct field called `field` (for the
ASCII field names of this program). -/
def Json.names (field key : String) : Bool :=
  field.data.map Json.foldChar == key.data.map Json.foldChar

/-- Decoding into a `string` field holding `old`. -/
def Json.intoString (old : String) : Json → Except Error String
  | Json.str s => .ok s
  | Json.null => .ok old
  | _ => .error "json: cannot unmarshal into Go value of type string"

/-- Decoding into one `Check` struct. -/
def Json.intoCheck (old : Check) : Json → Except Error Check
  | Json.obj kvs =>
    kvs.foldlM (fun (c : Check) (kv : String × Json) =>
      if Json.names "severity" kv.1 then (Json.intoString c.Status kv.2).map Check.mk
      else .ok c) old
  | Json.null => .ok old
  | _ => .error "json: cannot unmarshal into Go value of type struct"

/-- Decoding into the `Checks` struct. -/
def Json.intoChecks (old : HealthChecks) : Json → Except Error HealthChecks
  | Json.obj kvs =>
    kvs.foldlM (fun (c : HealthChecks) (kv : String × Json) =>
      if Json.names "PG_AVAILABILITY" kv.1 then
        (Json.intoCheck c.Availability kv.2).map (fun x => { c with Availability := x })
      else if Json.names "PG_DEGRADED" kv.1 then
        (Json.intoCheck c.Degraded kv.2).map (fun x => { c with Degraded := x })
      else if Json.names "REQUEST_SLOW" kv.1 then
        (Json.intoCheck c.SlowRequest kv.2).map (fun x => { c with SlowRequest := x })
      else if Json.names "OBJECT_MISPLACED" kv.1 then
        (Json.intoCheck c.Misplaced kv.2).map (fun x => { c with Misplaced := x })
      else .ok c) old
  | Json.null => .ok old
  | _ => .error "json: cannot unmarshal into Go value of type struct"

/-- Decoding a document into a zero `Health`. -/
def Json.intoHealth : Json → Except Error Health
  | Json.obj kvs =>
    kvs.foldlM (fun (h : Health) (kv : String × Json) =>
      if Json.names "Checks" kv.1 then
        (Json.intoChecks h.Checks kv.2).map (fun x => { h with Checks := x })
      else if Json.names "Status" kv.1 then
        (Json.intoString h.Status kv.2).map (fun x => { h with Status := x })
      else .ok h) Health.zero
  | Json.null => .ok Health.zero
  | _ => .error "json: cannot unmarshal into Go value of type main.Health"

/-- The dynamic value a document is stored as in an `interface{}`. -/
def Json.toValue : Json → Value
  | Json.null => Value.null
  | Json.bool b => Value.bool b
  | Json.num x => Value.float64 x
  | Json.str s => Value.string s
  | Json.arr _ => Value.array
  | Json.obj _ => Value.object

/-- Decoding a document into a nil `map[string]interface{}`. -/
def Json.intoMap : Json → Except Error (String → Option Value)
  | Json.obj kvs =>
    .ok (fun key => (kvs.reverse.find? (fun kv => kv.1 == key)).map (fun kv => Json.toValue kv.2))
  | Json.null => .ok (fun _ => none)
  | _ => .error "json: cannot unmarshal into Go value of type map[string]interface \x7b\x7d"

/-! ## A simulated cluster

An external system that keeps every parameter at the value last written to it,
prints that value as an integer literal when it is read, and answers the
successive health commands from a script. -/

/-- The simulated cluster. -/
structure Cluster where
  /-- The report answered to the health command number `n` (from 0). -/
  report : Nat → Json
  /-- How many health commands were answered so far. -/
  asked : Nat
  /-- The value of parameter `pgType` of pool `pool`. -/
  value : String → String → Int

/-- The simulated `ceph` command: every command succeeds. -/
def Cluster.exec (c : Cmd) (w : Cluster) : Except Error Json × Cluster :=
  match c with
  | Cmd.health => (.ok (w.report w.asked), { w with asked := w.asked + 1 })
  | Cmd.poolGet pool pgType =>
    (.ok (Json.obj [("pool", Json.str pool), (pgType, Json.int (w.value pool pgType))]), w)
  | Cmd.poolSet pool pgType n =>
    (.ok (Json.str ("set pool " ++ pool ++ " " ++ pgType)),
      { w with value := fun p t => if p = pool ∧ t = pgType then n else w.value p t })

/-- The runtime of the simulated cluster.  On amd64 an out-of-range conversion
to `int64` gives the smallest `int64`. -/
def simRuntime : Runtime Json Cluster where
  execCommand := Cluster.exec
  unmarshalHealth := Json.intoHealth
  unmarshalMap := Json.intoMap
  int64OutOfRange := fun _ => minInt64

/-! ## The documents of `main_test.go` -/

/-- One entry of `checks` as the fixtures write it. -/
def mockCheck (severity message : String) : Json :=
  Json.obj [("severity", Json.str severity),
    ("summary", Json.obj [("message", Json.str message)])]

/-- The fixture `mockHealthOKJSON`. -/
def mockHealthOKJSON : Json :=
  Json.obj [("checks", Json.obj []), ("status", Json.str "HEALTH_OK")]

/-- The fixture `mockHealthErrJSON`. -/
def mockHealthErrJSON : Json :=
  Json.obj [("checks", Json.obj [
      ("OSD_BACKFILLFULL", mockCheck "HEALTH_WARN" "1 backfillfull osd(s)"),
      ("OSD_FULL", mockCheck "HEALTH_ERR" "11 full osd(s)"),
      ("SMALLER_PGP_NUM", mockCheck "HEALTH_WARN" "1 pools have pg_num > pgp_num")]),
    ("status", Json.str "HEALTH_ERR")]

/-- The fixture `mockHealthWarnButOKJSON`. -/
def mockHealthWarnButOKJSON : Json :=
  Json.obj [("checks", Json.obj [
      ("OSD_BACKFILLFULL", mockCheck "HEALTH_WARN" "1 backfillfull osd(s)"),
      ("OSD_NEARFULL", mockCheck "HEALTH_WARN" "21 nearfull osd(s)"),
      ("SMALLER_PGP_NUM", mockCheck "HEALTH_WARN" "1 pools have pg_num > pgp_num")]),
    ("status", Json.str "HEALTH_WARN")]

/-- The fixture `mockHealthAvailWarnJSON`. -/
def mockHealthAvailWarnJSON : Json :=
  Json.obj [("checks", Json.obj [
      ("PG_AVAILABILITY", mockCheck "HEALTH_WARN"
        "Reduced data availability: 42 pgs inactive, 42 pgs down"),
      ("SMALLER_PGP_NUM", mockCheck "HEALTH_WARN" "1 pools have pg_num > pgp_num")]),
    ("status", Json.str "HEALTH_WARN")]

/-- The fixture `mockHealhReqWarnJSON`. -/
def mockHealhReqWarnJSON : Json :=
  Json.obj [("checks", Json.obj [
      ("REQUEST_SLOW", mockCheck "HEALTH_WARN" "49 slow requests are blocked > 32 sec"),
      ("SMALLER_PGP_NUM", mockCheck "HEALTH_WARN" "1 pools have pg_num > pgp_num")]),
    ("status", Json.str "HEALTH_WARN")]

/-- The fixture `mockHealthDegWarnJSON`. -/
def mockHealthDegWarnJSON : Json :=
  Json.obj [("checks", Json.obj [
      ("PG_DEGRADED", mockCheck "HEALTH_WARN"
        "Degraded data redundancy: 755285/432195232 objects degraded (0.175%), 68 pgs degraded, 68 pgs undersized"),
      ("SMALLER_PGP_NUM", mockCheck "HEALTH_WARN" "1 pools have pg_num > pgp_num")]),
    ("status", Json.str "HEALTH_WARN")]

/-- The fixture `mockHealthMisWarnJSON`. -/
def mockHealthMisWarnJSON : Json :=
  Json.obj [("checks", Json.obj [
      ("OBJECT_MISPLACED", mockCheck "HEALTH_WARN" "249814/435347950 objects misplaced (0.057%)"),
      ("SMALLER_PGP_NUM", mockCheck "HEALTH_WARN" "1 pools have pg_num > pgp_num")]),
    ("status", Json.str "HEALTH_WARN")]

/-- The fixture `mockHealthWarnAllJSON`. -/
def mockHealthWarnAllJSON : Json :=
  Json.obj [("checks", Json.obj [
      ("PG_AVAILABILITY", mockCheck "HEALTH_WARN"
        "Reduced data availability: 42 pgs inactive, 42 pgs down"),
      ("PG_DEGRADED", mockCheck "HEALTH_WARN"
        "Degraded data redundancy: 755285/432195232 objects degraded (0.175%), 68 pgs degraded, 68 pgs undersized"),
      ("REQUEST_SLOW", mockCheck "HEALTH_WARN" "49 slow requests are blocked > 32 sec"),
      ("OBJECT_MISPLACED", mockCheck "HEALTH_WARN" "249814/435347950 objects misplaced (0.057%)"),
      ("SMALLER_PGP_NUM", mockCheck "HEALTH_WARN" "1 pools have pg_num > pgp_num")]),
    ("status", Json.str "HEALTH_WARN")]

/-- The events of one tick: what `raise` appends to the trace. -/
def tick {β σ : Type} (rt : Runtime β σ) (pool pgType : String) (target delta : Int)
    (done : Chan) (s : State σ) : List Event :=
  (raise rt pool pgType target delta done s).2.2.trace.drop s.trace.length

/-- A simulated cluster whose every health report is `report` and whose every
parameter has the value `v`. -/
def Cluster.steady (report : Json) (v : Int) : Cluster :=
  ⟨fun _ => report, 0, fun _ _ => v⟩

/-- The simulated cluster after a write of `n` to `pgType` of `pool` that
followed one health command. -/
def Cluster.afterWrite (w : Cluster) (pool pgType : String) (n : Int) : Cluster :=
  { report := w.report, asked := w.asked + 1,
    value := fun p t => if p = pool ∧ t = pgType then n else w.value p t }

/-- The invariant of a phase on the simulated cluster: the stored value is at
most `2 ^ 53` in magnitude, so that a read gives it back, the values written so
far are strictly increasing and none of them exceeds the stored value or the
target. -/
def PhaseInv (pool pgType : String) (target : Int) (s : State Cluster) : Prop :=
  -9007199254740992 ≤ s.world.value pool pgType ∧
  s.world.value pool pgType ≤ 9007199254740992 ∧
  List.Pairwise (fun a b => a < b) (writes s.trace) ∧
  ∀ n ∈ writes s.trace, n ≤ s.world.value pool pgType ∧ n ≤ target

/-- The events of a tick that writes `n` and settles. -/
def stepEvents (pool pgType : String) (n : Int) : List Event :=
  [Event.exec Cmd.health, Event.exec (Cmd.poolGet pool pgType),
    Event.exec (Cmd.poolSet pool pgType n), Event.sleep 40]

/-- The values a phase from `c` to `target` by steps of `d` is to write with
its first `k` writes: the write number `i` (from 1) is `min (c + i * d) target`. -/
def plannedWrites (c target d : Int) (k : Nat) : List Int :=
  (List.range k).map (fun (i : Nat) => min (c + ((i : Int) + 1) * d) target)

/-- The number `ceil ((target - c) / d)`. -/
def stepsNeeded (c target d : Int) : Nat :=
  Int.toNat ⌈((target - c : Int) : ℚ) / (d : ℚ)⌉

/-- A simulated cluster some of whose commands fail: a command chosen by
`fails` exits with a bad status and leaves the cluster as it was. -/
def faultyRuntime (fails : Cmd → Bool) : Runtime Json Cluster where
  execCommand := fun c w => if fails c then (.error "exit status 1", w) else Cluster.exec c w
  unmarshalHealth := Json.intoHealth
  unmarshalMap := Json.intoMap
  int64OutOfRange := fun _ => minInt64

/-- The fixture `mockPGNumJSON`. -/
def mockPGNumJSON : Json :=
  Json.obj [("pool", Json.str "cephfs_data"), ("pool_id", Json.num 22), ("pg_num", Json.num 1024)]

/-- The fixture `mockPGPNumJSON`. -/
def mockPGPNumJSON : Json :=
  Json.obj [("pool", Json.str "cephfs_data"), ("pool_id", Json.num 22), ("pgp_num", Json.num 256)]

/-- The helper process of `main_test.go` behind `mockExecCommand`: `health`
prints `mockHealthOKJSON`, `osd pool get` prints the fixture of `pg_num` or
`pgp_num` and exits with status 22 for any other parameter, `osd pool set`
prints nothing. -/
def mockRuntime : Runtime Json Unit where
  execCommand := fun c w =>
    match c with
    | Cmd.health => (.ok mockHealthOKJSON, w)
    | Cmd.poolGet _ pgType =>
      if pgType = "pg_num" then (.ok mockPGNumJSON, w)
      else if pgType = "pgp_num" then (.ok mockPGPNumJSON, w)
      else (.error "exit status 22", w)
    | Cmd.poolSet _ _ _ => (.ok Json.null, w)
  unmarshalHealth := Json.intoHealth
  unmarshalMap := Json.intoMap
  int64OutOfRange := fun _ => minInt64

/-- The event is a write command. -/
def Event.isWrite : Event → Bool
  | Event.exec (Cmd.poolSet _ _ _) => true
  | _ => false

/-- Every write on the trace is directly followed by the settle pause. -/
def pausedAfterWrites : List Event → Bool
  | [] => true
  | e :: rest =>
    (!e.isWrite || decide (rest.head? = some (Event.sleep 40))) && pausedAfterWrites rest

/-- Every write on the trace is directly followed by the settle pause, except
that the trace may end with a write. -/
def settledTrace : List Event → Bool
  | [] => true
  | e :: rest =>
    (!e.isWrite || rest.isEmpty || decide (rest.head? = some (Event.sleep 40)))
      && settledTrace rest

/-- The events of one phase before its completion is received: the commands
are health commands and reads and writes of parameter `pgType` of `pool`, and
there is neither a receive from `done` nor the pause between the phases. -/
def PhaseTrace (pool pgType : String) (evs : List Event) : Prop :=
  (∀ c, Event.exec c ∈ evs →
    c = Cmd.health ∨ c = Cmd.poolGet pool pgType ∨ ∃ n, c = Cmd.poolSet pool pgType n) ∧
  Event.recv ∉ evs ∧ Event.sleep 30 ∉ evs

/-- A command runner whose every command succeeds and prints `out`. -/
def staticRuntime (out : Json) : Runtime Json Unit where
  execCommand := fun _ w => (.ok out, w)
  unmarshalHealth := Json.intoHealth
  unmarshalMap := Json.intoMap
  int64OutOfRange := fun _ => minInt64

/-! ## The health gate -/

/-- The verdict of `healthy` on a snapshot that unmarshals to `h`. -/
theorem healthy_of_unmarshal {β σ : Type} (rt : Runtime β σ) (j : β) (h : Health)
    (hj : rt.unmarshalHealth j = .ok h) :
    healthy rt j =
      if h.Status = "HEALTH_OK" then some true
      else if h.Status = "HEALTH_ERR" then some false
      else if h.Checks.Availability.Status = "HEALTH_WARN" then some false
      else if h.Checks.Degraded.Status = "HEALTH_WARN" then some false
      else if h.Checks.SlowRequest.Status = "HEALTH_WARN" then some false
      else if h.Checks.Misplaced.Status = "HEALTH_WARN" then some false
      else some true := by
  simp only [healthy, hj]

/-- C1. Health Gate blocks on tracked warnings: a snapshot with overall status
HEALTH_WARN in which at least one of PG_AVAILABILITY, PG_DEGRADED, REQUEST_SLOW,
OBJECT_MISPLACED has severity HEALTH_WARN is rejected, whatever the other
tracked severities are (untracked checks are not part of the decoded
snapshot). -/
theorem healthy_blocks_on_tracked_warning {β σ : Type} (rt : Runtime β σ) (j : β) (h : Health)
    (hj : rt.unmarshalHealth j = .ok h) (hs : h.Status = "HEALTH_WARN")
    (hw : h.Checks.Availability.Status = "HEALTH_WARN" ∨
      h.Checks.Degraded.Status = "HEALTH_WARN" ∨
      h.Checks.SlowRequest.Status = "HEALTH_WARN" ∨
      h.Checks.Misplaced.Status = "HEALTH_WARN") :
    healthy rt j = some false := by
  rw [healthy_of_unmarshal rt j h hj, hs]
  rcases hw with hw | hw | hw | hw
  · simp [hw]
  · simp only [hw]; split_ifs <;> first | rfl | contradiction
  · simp only [hw]; split_ifs <;> first | rfl | contradiction
  · simp only [hw]; split_ifs <;> first | rfl | contradiction

/-- Witness for C1: the five fixtures of `TestHealthy` with a tracked warning,
each of the four alone and all four together. -/
theorem healthy_blocks_on_tracked_warning_witness :
    (Json.intoHealth mockHealthAvailWarnJSON
        = .ok ⟨⟨⟨"HEALTH_WARN"⟩, ⟨""⟩, ⟨""⟩, ⟨""⟩⟩, "HEALTH_WARN"⟩
      ∧ healthy simRuntime mockHealthAvailWarnJSON = some false)
    ∧ healthy simRuntime mockHealthDegWarnJSON = some false
    ∧ healthy simRuntime mockHealhReqWarnJSON = some false
    ∧ healthy simRuntime mockHealthMisWarnJSON = some false
    ∧ healthy simRuntime mockHealthWarnAllJSON = some false :=
  ⟨⟨rfl, healthy_blocks_on_tracked_warning simRuntime mockHealthAvailWarnJSON
      ⟨⟨⟨"HEALTH_WARN"⟩, ⟨""⟩, ⟨""⟩, ⟨""⟩⟩, "HEALTH_WARN"⟩ rfl rfl (Or.inl rfl)⟩,
    healthy_blocks_on_tracked_warning simRuntime mockHealthDegWarnJSON
      ⟨⟨⟨""⟩, ⟨"HEALTH_WARN"⟩, ⟨""⟩, ⟨""⟩⟩, "HEALTH_WARN"⟩ rfl rfl (Or.inr (Or.inl rfl)),
    healthy_blocks_on_tracked_warning simRuntime mockHealhReqWarnJSON
      ⟨⟨⟨""⟩, ⟨""⟩, ⟨"HEALTH_WARN"⟩, ⟨""⟩⟩, "HEALTH_WARN"⟩ rfl rfl (Or.inr (Or.inr (Or.inl rfl))),
    healthy_blocks_on_tracked_warning simRuntime mockHealthMisWarnJSON
      ⟨⟨⟨""⟩, ⟨""⟩, ⟨""⟩, ⟨"HEALTH_WARN"⟩⟩, "HEALTH_WARN"⟩ rfl rfl (Or.inr (Or.inr (Or.inr rfl))),
    healthy_blocks_on_tracked_warning simRuntime mockHealthWarnAllJSON
      ⟨⟨⟨"HEALTH_WARN"⟩, ⟨"HEALTH_WARN"⟩, ⟨"HEALTH_WARN"⟩, ⟨"HEALTH_WARN"⟩⟩, "HEALTH_WARN"⟩
      rfl rfl (Or.inl rfl)⟩

/-- C2. Health Gate passes on untracked warnings: a snapshot with overall status
HEALTH_WARN in which none of the four tracked sub-checks has severity
HEALTH_WARN is accepted.  A snapshot with only untracked checks, or without the
checks object, decodes to four empty severities and is such a snapshot. -/
theorem healthy_passes_on_untracked_warning {β σ : Type} (rt : Runtime β σ) (j : β)
    (h : Health) (hj : rt.unmarshalHealth j = .ok h) (hs : h.Status = "HEALTH_WARN")
    (ha : h.Checks.Availability.Status ≠ "HEALTH_WARN")
    (hd : h.Checks.Degraded.Status ≠ "HEALTH_WARN")
    (hr : h.Checks.SlowRequest.Status ≠ "HEALTH_WARN")
    (hm : h.Checks.Misplaced.Status ≠ "HEALTH_WARN") :
    healthy rt j = some true := by
  rw [healthy_of_unmarshal rt j h hj, hs]
  simp [ha, hd, hr, hm]

/-- Witness for C2: the fixture with untracked checks only, and a snapshot
without the checks object. -/
theorem healthy_passes_on_untracked_warning_witness :
    (Json.intoHealth mockHealthWarnButOKJSON = .ok ⟨⟨⟨""⟩, ⟨""⟩, ⟨""⟩, ⟨""⟩⟩, "HEALTH_WARN"⟩
      ∧ healthy simRuntime mockHealthWarnButOKJSON = some true)
    ∧ healthy simRuntime (Json.obj [("status", Json.str "HEALTH_WARN")]) = some true :=
  ⟨⟨rfl, healthy_passes_on_untracked_warning simRuntime mockHealthWarnButOKJSON
      ⟨⟨⟨""⟩, ⟨""⟩, ⟨""⟩, ⟨""⟩⟩, "HEALTH_WARN"⟩ rfl rfl
      (by decide) (by decide) (by decide) (by decide)⟩,
    healthy_passes_on_untracked_warning simRuntime (Json.obj [("status", Json.str "HEALTH_WARN")])
      ⟨⟨⟨""⟩, ⟨""⟩, ⟨""⟩, ⟨""⟩⟩, "HEALTH_WARN"⟩ rfl rfl
      (by decide) (by decide) (by decide) (by decide)⟩

/-- Entries of `checks` whose keys name none of the four tracked sub-checks
leave the decoded checks as they were, whatever their values are. -/
theorem Json.intoChecks_untracked (kvs : List (String × Json))
    (h : ∀ kv ∈ kvs, Json.names "PG_AVAILABILITY" kv.1 = false ∧
      Json.names "PG_DEGRADED" kv.1 = false ∧ Json.names "REQUEST_SLOW" kv.1 = false ∧
      Json.names "OBJECT_MISPLACED" kv.1 = false) (old : HealthChecks) :
    Json.intoChecks old (Json.obj kvs) = .ok old := by
  simp only [Json.intoChecks]
  induction kvs with
  | nil => rfl
  | cons kv kvs ih =>
    obtain ⟨ha, hd, hr, hm⟩ := h kv (by simp)
    rw [List.foldlM_cons]
    simp only [ha, hd, hr, hm, Bool.false_eq_true, if_false]
    exact ih (fun x hx => h x (by simp [hx]))

/-- A snapshot with overall status HEALTH_WARN whose `checks` object holds
untracked checks only is accepted by the health gate. -/
theorem healthy_of_untracked_checks (kvs : List (String × Json))
    (h : ∀ kv ∈ kvs, Json.names "PG_AVAILABILITY" kv.1 = false ∧
      Json.names "PG_DEGRADED" kv.1 = false ∧ Json.names "REQUEST_SLOW" kv.1 = false ∧
      Json.names "OBJECT_MISPLACED" kv.1 = false) :
    healthy simRuntime
      (Json.obj [("checks", Json.obj kvs), ("status", Json.str "HEALTH_WARN")]) = some true := by
  have hdec : Json.intoHealth
      (Json.obj [("checks", Json.obj kvs), ("status", Json.str "HEALTH_WARN")])
        = .ok ⟨⟨⟨""⟩, ⟨""⟩, ⟨""⟩, ⟨""⟩⟩, "HEALTH_WARN"⟩ := by
    have h1 : Json.names "Checks" "checks" = true := by decide
    have h2 : Json.names "Checks" "status" = false := by decide
    have h3 : Json.names "Status" "status" = true := by decide
    simp only [Json.intoHealth, List.foldlM_cons, List.foldlM_nil, h1, h2, h3, if_true,
      Health.zero, Json.intoChecks_untracked kvs h, Json.intoString]
    rfl
  rw [healthy_of_unmarshal simRuntime
    (Json.obj [("checks", Json.obj kvs), ("status", Json.str "HEALTH_WARN")])
    ⟨⟨⟨""⟩, ⟨""⟩, ⟨""⟩, ⟨""⟩⟩, "HEALTH_WARN"⟩ hdec]
  rfl

/-- C3. Healthy short-circuit: a snapshot with overall status HEALTH_OK is
accepted regardless of the severities of the four tracked sub-checks. -/
theorem healthy_of_status_ok {β σ : Type} (rt : Runtime β σ) (j : β) (h : Health)
    (hj : rt.unmarshalHealth j = .ok h) (hs : h.Status = "HEALTH_OK") :
    healthy rt j = some true := by
  rw [healthy_of_unmarshal rt j h hj, hs]
  simp

/-- Witness for C3: the fixture `mockHealthOKJSON`, and overall HEALTH_OK
with all four tracked sub-checks at HEALTH_WARN. -/
theorem healthy_of_status_ok_witness :
    (Json.intoHealth mockHealthOKJSON = .ok ⟨⟨⟨""⟩, ⟨""⟩, ⟨""⟩, ⟨""⟩⟩, "HEALTH_OK"⟩
      ∧ healthy simRuntime mockHealthOKJSON = some true)
    ∧ healthy simRuntime (Json.obj [("checks", Json.obj [
          ("PG_AVAILABILITY", mockCheck "HEALTH_WARN" ""),
          ("PG_DEGRADED", mockCheck "HEALTH_WARN" ""),
          ("REQUEST_SLOW", mockCheck "HEALTH_WARN" ""),
          ("OBJECT_MISPLACED", mockCheck "HEALTH_WARN" "")]),
        ("status", Json.str "HEALTH_OK")]) = some true :=
  ⟨⟨rfl, healthy_of_status_ok simRuntime mockHealthOKJSON
      ⟨⟨⟨""⟩, ⟨""⟩, ⟨""⟩, ⟨""⟩⟩, "HEALTH_OK"⟩ rfl rfl⟩,
    healthy_of_status_ok simRuntime _
      ⟨⟨⟨"HEALTH_WARN"⟩, ⟨"HEALTH_WARN"⟩, ⟨"HEALTH_WARN"⟩, ⟨"HEALTH_WARN"⟩⟩, "HEALTH_OK"⟩
      rfl rfl⟩

/-- C4. A snapshot with overall status HEALTH_ERR is rejected regardless of the
severities of the four tracked sub-checks. -/
theorem healthy_of_status_err {β σ : Type} (rt : Runtime β σ) (j : β) (h : Health)
    (hj : rt.unmarshalHealth j = .ok h) (hs : h.Status = "HEALTH_ERR") :
    healthy rt j = some false := by
  rw [healthy_of_unmarshal rt j h hj, hs]
  simp

/-- Witness for C4: the fixture `mockHealthErrJSON`, in which all four tracked
sub-checks are absent. -/
theorem healthy_of_status_err_witness :
    Json.intoHealth mockHealthErrJSON = .ok ⟨⟨⟨""⟩, ⟨""⟩, ⟨""⟩, ⟨""⟩⟩, "HEALTH_ERR"⟩
      ∧ healthy simRuntime mockHealthErrJSON = some false :=
  ⟨rfl, healthy_of_status_err simRuntime mockHealthErrJSON
    ⟨⟨⟨""⟩, ⟨""⟩, ⟨""⟩, ⟨""⟩⟩, "HEALTH_ERR"⟩ rfl rfl⟩

/-- C18. Unrecognised or missing overall status is treated like WARN: on a
snapshot whose status is neither HEALTH_OK nor HEALTH_ERR (the empty string of
a snapshot without status key included) `healthy` returns true exactly when
none of the four tracked severities is HEALTH_WARN, which is its verdict on the
same sub-checks under HEALTH_WARN. -/
theorem healthy_of_other_status {β σ : Type} (rt : Runtime β σ) (j : β) (h : Health)
    (hj : rt.unmarshalHealth j = .ok h) (hok : h.Status ≠ "HEALTH_OK")
    (herr : h.Status ≠ "HEALTH_ERR") :
    healthy rt j = some (decide (h.Checks.Availability.Status ≠ "HEALTH_WARN" ∧
        h.Checks.Degraded.Status ≠ "HEALTH_WARN" ∧
        h.Checks.SlowRequest.Status ≠ "HEALTH_WARN" ∧
        h.Checks.Misplaced.Status ≠ "HEALTH_WARN")) ∧
      ∀ jw, rt.unmarshalHealth jw = .ok ⟨h.Checks, "HEALTH_WARN"⟩ →
        healthy rt j = healthy rt jw := by
  have hverdict : ∀ (j0 : β) (h0 : Health), rt.unmarshalHealth j0 = .ok h0 →
      h0.Status ≠ "HEALTH_OK" → h0.Status ≠ "HEALTH_ERR" →
      healthy rt j0 = some (decide (h0.Checks.Availability.Status ≠ "HEALTH_WARN" ∧
        h0.Checks.Degraded.Status ≠ "HEALTH_WARN" ∧
        h0.Checks.SlowRequest.Status ≠ "HEALTH_WARN" ∧
        h0.Checks.Misplaced.Status ≠ "HEALTH_WARN")) := by
    intro j0 h0 hj0 h1 h2
    rw [healthy_of_unmarshal rt j0 h0 hj0, if_neg h1, if_neg h2]
    by_cases ha : h0.Checks.Availability.Status = "HEALTH_WARN"
    · simp [ha]
    · by_cases hd : h0.Checks.Degraded.Status = "HEALTH_WARN"
      · simp [ha, hd]
      · by_cases hr : h0.Checks.SlowRequest.Status = "HEALTH_WARN"
        · simp [ha, hd, hr]
        · by_cases hm : h0.Checks.Misplaced.Status = "HEALTH_WARN"
          · simp [ha, hd, hr, hm]
          · simp [ha, hd, hr, hm]
  refine ⟨hverdict j h hj hok herr, ?_⟩
  intro jw hjw
  have h1 : (⟨h.Checks, "HEALTH_WARN"⟩ : Health).Status ≠ "HEALTH_OK" := by
    show "HEALTH_WARN" ≠ "HEALTH_OK"
    decide
  have h2 : (⟨h.Checks, "HEALTH_WARN"⟩ : Health).Status ≠ "HEALTH_ERR" := by
    show "HEALTH_WARN" ≠ "HEALTH_ERR"
    decide
  rw [hverdict j h hj hok herr, hverdict jw _ hjw h1 h2]

/-- Witness for C18: the document without any key is accepted, and an
unrecognised status with PG_DEGRADED at HEALTH_WARN is rejected. -/
theorem healthy_of_other_status_witness :
    (Json.intoHealth (Json.obj []) = .ok ⟨⟨⟨""⟩, ⟨""⟩, ⟨""⟩, ⟨""⟩⟩, ""⟩ ∧
      healthy simRuntime (Json.obj []) = some true) ∧
    healthy simRuntime (Json.obj [("checks", Json.obj [
        ("PG_DEGRADED", mockCheck "HEALTH_WARN" "")]), ("status", Json.str "HEALTH_UNKNOWN")])
      = some false :=
  ⟨⟨rfl, (healthy_of_other_status simRuntime (Json.obj [])
      ⟨⟨⟨""⟩, ⟨""⟩, ⟨""⟩, ⟨""⟩⟩, ""⟩ rfl (by decide) (by decide)).1⟩,
    (healthy_of_other_status simRuntime (Json.obj [("checks", Json.obj [
        ("PG_DEGRADED", mockCheck "HEALTH_WARN" "")]), ("status", Json.str "HEALTH_UNKNOWN")])
      ⟨⟨⟨""⟩, ⟨"HEALTH_WARN"⟩, ⟨""⟩, ⟨""⟩⟩, "HEALTH_UNKNOWN"⟩ rfl (by decide) (by decide)).1⟩

/-- C19. Only the literal severity HEALTH_WARN on a tracked sub-check blocks:
a snapshot with overall status HEALTH_WARN whose four tracked severities are
any strings other than HEALTH_WARN (HEALTH_ERR, say) is accepted. -/
theorem healthy_of_other_severities {β σ : Type} (rt : Runtime β σ) (j : β)
    (a d r m : String) (hj : rt.unmarshalHealth j = .ok ⟨⟨⟨a⟩, ⟨d⟩, ⟨r⟩, ⟨m⟩⟩, "HEALTH_WARN"⟩)
    (ha : a ≠ "HEALTH_WARN") (hd : d ≠ "HEALTH_WARN") (hr : r ≠ "HEALTH_WARN")
    (hm : m ≠ "HEALTH_WARN") :
    healthy rt j = some true := by
  rw [healthy_of_unmarshal rt j _ hj]
  simp [ha, hd, hr, hm]

/-- Witness for C19: overall HEALTH_WARN with PG_AVAILABILITY at HEALTH_ERR. -/
theorem healthy_of_other_severities_witness :
    healthy simRuntime (Json.obj [("checks", Json.obj [
        ("PG_AVAILABILITY", mockCheck "HEALTH_ERR" "")]), ("status", Json.str "HEALTH_WARN")])
      = some true :=
  healthy_of_other_severities simRuntime (Json.obj [("checks", Json.obj [
      ("PG_AVAILABILITY", mockCheck "HEALTH_ERR" "")]), ("status", Json.str "HEALTH_WARN")])
    "HEALTH_ERR" "" "" "" rfl
    (by decide) (by decide) (by decide) (by decide)

/-! ## Integers and `float64` -/

/-- The conversion `int64(f)` of a `float64` that is an integer in the
`int64` range. -/
theorem int64OfFloat64_intCast {β σ : Type} (rt : Runtime β σ) (n : Int)
    (h1 : minInt64 ≤ n) (h2 : n ≤ maxInt64) : int64OfFloat64 rt (n : ℚ) = n := by
  simp [int64OfFloat64, h1, h2]

/-- An integer below `2 ^ 53` in magnitude is a `float64`. -/
theorem float64OfInt_exact (n : Int) (h : n.natAbs < 9007199254740992) :
    float64OfInt n = (n : ℚ) := by
  simp [float64OfInt, h]

/-- An integer of magnitude at most `2 ^ 53` is a `float64`. -/
theorem float64OfInt_exact_le (n : Int) (h1 : -9007199254740992 ≤ n)
    (h2 : n ≤ 9007199254740992) : float64OfInt n = (n : ℚ) := by
  by_cases h : n.natAbs < 9007199254740992
  · exact float64OfInt_exact n h
  · have hn : n = 9007199254740992 ∨ n = -9007199254740992 := by omega
    rcases hn with hn | hn
    · subst hn
      decide
    · subst hn
      decide

/-! ## One tick of `raise` -/

theorem wrapInt64_of_range (x : Int) (h1 : minInt64 ≤ x) (h2 : x ≤ maxInt64) :
    wrapInt64 x = x := by
  unfold wrapInt64
  unfold minInt64 at h1
  unfold maxInt64 at h2
  omega

theorem wrapInt64_range (x : Int) : minInt64 ≤ wrapInt64 x ∧ wrapInt64 x ≤ maxInt64 := by
  unfold wrapInt64 minInt64 maxInt64
  omega

theorem int64OfFloat64_range {β σ : Type} (rt : Runtime β σ) (x : ℚ) :
    minInt64 ≤ int64OfFloat64 rt x ∧ int64OfFloat64 rt x ≤ maxInt64 := by
  unfold int64OfFloat64
  simp only
  split_ifs with h
  · exact h
  · exact wrapInt64_range _

theorem runCmd_trace {β σ : Type} (rt : Runtime β σ) (c : Cmd) (s : State σ) :
    (runCmd rt c s).2.trace = s.trace ++ [Event.exec c] := by
  unfold runCmd
  split <;> rfl

theorem runCmd_trace_of_eq {β σ : Type} (rt : Runtime β σ) (c : Cmd) (s s1 : State σ)
    (r : Except Error β) (h : runCmd rt c s = (r, s1)) :
    s1.trace = s.trace ++ [Event.exec c] := by
  have := runCmd_trace rt c s
  rw [h] at this
  exact this

/-- The function `get` runs exactly one command, and a value it returns without error is an
`int64`. -/
theorem get_spec {β σ : Type} (rt : Runtime β σ) (pool pgType : String) (s s1 : State σ)
    (r : Ret (Int × Option Error)) (h : get rt pool pgType s = (r, s1)) :
    s1.trace = s.trace ++ [Event.exec (Cmd.poolGet pool pgType)] ∧
      ∀ cur, r = .returned (cur, none) → minInt64 ≤ cur ∧ cur ≤ maxInt64 := by
  unfold get at h
  have ht := runCmd_trace rt (Cmd.poolGet pool pgType) s
  split at h
  · rename_i err s2 heq
    rw [heq] at ht
    simp only [Prod.mk.injEq] at h
    obtain ⟨h1, h2⟩ := h
    subst h1 h2
    exact ⟨ht, by intro cur hc; simp at hc⟩
  · rename_i b s2 heq
    rw [heq] at ht
    split at h
    · simp only [Prod.mk.injEq] at h
      obtain ⟨h1, h2⟩ := h
      subst h1 h2
      exact ⟨ht, by intro cur hc; simp at hc⟩
    · split at h
      · simp only [Prod.mk.injEq] at h
        obtain ⟨h1, h2⟩ := h
        subst h1 h2
        exact ⟨ht, by intro cur hc; simp at hc⟩
      · simp only [Prod.mk.injEq] at h
        obtain ⟨h1, h2⟩ := h
        subst h1 h2
        refine ⟨ht, ?_⟩
        intro cur hc
        simp only [Ret.returned.injEq, Prod.mk.injEq, and_true] at hc
        subst hc
        exact int64OfFloat64_range rt _
      · simp only [Prod.mk.injEq] at h
        obtain ⟨h1, h2⟩ := h
        subst h1 h2
        exact ⟨ht, by intro cur hc; simp at hc⟩

/-- The value `raise` writes when it read `cPg`: `cPg + delta` in `int64`,
clamped to `target`. -/
theorem raise_of_healthy_read {β σ : Type} (rt : Runtime β σ) (pool pgType : String)
    (target delta : Int) (done : Chan) (s s1 s2 : State σ) (j : β) (cur : Int)
    (hh : runCmd rt Cmd.health s = (.ok j, s1)) (hg : healthy rt j = some true)
    (hr : get rt pool pgType s1 = (.returned (cur, none), s2)) :
    raise rt pool pgType target delta done s =
      if cur ≥ target then
        if done.len < done.cap then
          (.returned none, ⟨done.cap, done.len + 1⟩, ⟨s2.world, s2.trace ++ [Event.send]⟩)
        else (.blocked, done, s2)
      else
        match runCmd rt (Cmd.poolSet pool pgType
            (if wrapInt64 (cur + delta) > target then target else wrapInt64 (cur + delta))) s2 with
        | (.error err, s3) => (.returned (some err), done, s3)
        | (.ok _, s3) => (.returned none, done, ⟨s3.world, s3.trace ++ [Event.sleep 40]⟩) := by
  unfold raise
  simp only [hh, hg, hr]

/-- The trace after the two reads of a healthy tick. -/
theorem trace_of_healthy_read {β σ : Type} (rt : Runtime β σ) (pool pgType : String)
    (s s1 s2 : State σ) (j : β) (r : Ret (Int × Option Error))
    (hh : runCmd rt Cmd.health s = (.ok j, s1))
    (hr : get rt pool pgType s1 = (r, s2)) :
    s2.trace = s.trace ++ [Event.exec Cmd.health, Event.exec (Cmd.poolGet pool pgType)] := by
  rw [(get_spec rt pool pgType s1 s2 r hr).1, runCmd_trace_of_eq rt _ s s1 _ hh]
  simp

theorem writes_append (xs ys : List Event) : writes (xs ++ ys) = writes xs ++ writes ys := by
  induction xs with
  | nil => rfl
  | cons x xs ih =>
    cases x with
    | exec c => cases c <;> simp [writes, ih]
    | send => simp [writes, ih]
    | recv => simp [writes, ih]
    | sleep n => simp [writes, ih]

/-- The events of a healthy tick that read a value below `target`. -/
theorem tick_of_step {β σ : Type} (rt : Runtime β σ) (pool pgType : String)
    (target delta : Int) (done : Chan) (s s1 s2 : State σ) (j : β) (cur : Int)
    (hh : runCmd rt Cmd.health s = (.ok j, s1)) (hg : healthy rt j = some true)
    (hr : get rt pool pgType s1 = (.returned (cur, none), s2)) (hlt : cur < target) :
    ∃ tail, (tail = [] ∨ tail = [Event.sleep 40]) ∧
      tick rt pool pgType target delta done s =
        [Event.exec Cmd.health, Event.exec (Cmd.poolGet pool pgType),
          Event.exec (Cmd.poolSet pool pgType
            (if wrapInt64 (cur + delta) > target then target else wrapInt64 (cur + delta)))]
          ++ tail := by
  have ht := trace_of_healthy_read rt pool pgType s s1 s2 j _ hh hr
  unfold tick
  rw [raise_of_healthy_read rt pool pgType target delta done s s1 s2 j cur hh hg hr]
  rw [if_neg (by omega)]
  split
  · rename_i err s3 heq
    have hw := runCmd_trace_of_eq rt _ s2 s3 _ heq
    refine ⟨[], Or.inl rfl, ?_⟩
    simp [hw, ht]
  · rename_i out s3 heq
    have hw := runCmd_trace_of_eq rt _ s2 s3 _ heq
    refine ⟨[Event.sleep 40], Or.inr rfl, ?_⟩
    simp [hw, ht]

/-- C5. Step computation: in a healthy tick that read `cur < target`, with a
positive `delta` such that `cur + delta` is within the `int64` range, `raise`
issues exactly one write and the value written is `min (cur + delta) target`,
which never exceeds `target`. -/
theorem raise_writes_min_step {β σ : Type} (rt : Runtime β σ) (pool pgType : String)
    (target delta : Int) (done : Chan) (s s1 s2 : State σ) (j : β) (cur : Int)
    (hh : runCmd rt Cmd.health s = (.ok j, s1)) (hg : healthy rt j = some true)
    (hr : get rt pool pgType s1 = (.returned (cur, none), s2)) (hlt : cur < target)
    (hd : 0 < delta) (hfit : cur + delta ≤ maxInt64) :
    Event.exec (Cmd.poolSet pool pgType (min (cur + delta) target))
        ∈ tick rt pool pgType target delta done s
      ∧ writes (tick rt pool pgType target delta done s) = [min (cur + delta) target]
      ∧ min (cur + delta) target ≤ target := by
  obtain ⟨tail, htail, ht⟩ :=
    tick_of_step rt pool pgType target delta done s s1 s2 j cur hh hg hr hlt
  have hrange := (get_spec rt pool pgType s1 s2 _ hr).2 cur rfl
  have hwrap : wrapInt64 (cur + delta) = cur + delta :=
    wrapInt64_of_range _ (by omega) hfit
  have hmin : (if wrapInt64 (cur + delta) > target then target else wrapInt64 (cur + delta))
      = min (cur + delta) target := by
    rw [hwrap]
    split_ifs with h
    · exact (min_eq_right (le_of_lt h)).symm
    · exact (min_eq_left (not_lt.mp h)).symm
  rw [ht, hmin]
  refine ⟨by simp, ?_, min_le_right _ _⟩
  rcases htail with h | h <;> subst h <;> simp [writes]

/-- Witness for C5: the two step computations of the spec, `0 -> 10` and
`1020 -> 1024` for target 1024 and delta 10, on the simulated cluster. -/
theorem raise_writes_min_step_witness :
    ((0 : Int) < 1024 ∧ (0 : Int) < 10 ∧ (0 : Int) + 10 ≤ maxInt64) ∧
    writes (tick simRuntime "data" "pg_num" 1024 10 ⟨1, 0⟩
      ⟨Cluster.steady mockHealthOKJSON 0, []⟩) = [10] ∧
    writes (tick simRuntime "data" "pg_num" 1024 10 ⟨1, 0⟩
      ⟨Cluster.steady mockHealthOKJSON 1020, []⟩) = [1024] :=
  ⟨⟨by decide, by decide, by decide⟩,
    (raise_writes_min_step simRuntime "data" "pg_num" 1024 10 ⟨1, 0⟩
      ⟨Cluster.steady mockHealthOKJSON 0, []⟩ _ _ _ 0 rfl rfl rfl
      (by decide) (by decide) (by decide)).2.1,
    (raise_writes_min_step simRuntime "data" "pg_num" 1024 10 ⟨1, 0⟩
      ⟨Cluster.steady mockHealthOKJSON 1020, []⟩ _ _ _ 1020 rfl rfl rfl
      (by decide) (by decide) (by decide)).2.1⟩

/-- A healthy tick that reads `cur ≥ target` while the `done` channel has room:
no write, no pause, one completion signal, no error. -/
theorem raise_signals_done {β σ : Type} (rt : Runtime β σ) (pool pgType : String)
    (target delta : Int) (done : Chan) (s s1 s2 : State σ) (j : β) (cur : Int)
    (hh : runCmd rt Cmd.health s = (.ok j, s1)) (hg : healthy rt j = some true)
    (hr : get rt pool pgType s1 = (.returned (cur, none), s2)) (hge : cur ≥ target)
    (hroom : done.len < done.cap) :
    raise rt pool pgType target delta done s =
        (.returned none, ⟨done.cap, done.len + 1⟩, ⟨s2.world, s2.trace ++ [Event.send]⟩)
      ∧ tick rt pool pgType target delta done s =
        [Event.exec Cmd.health, Event.exec (Cmd.poolGet pool pgType), Event.send] := by
  have ht := trace_of_healthy_read rt pool pgType s s1 s2 j _ hh hr
  have hraise := raise_of_healthy_read rt pool pgType target delta done s s1 s2 j cur hh hg hr
  rw [if_pos hge, if_pos hroom] at hraise
  refine ⟨hraise, ?_⟩
  unfold tick
  rw [hraise]
  simp [ht]

/-- A healthy tick that reads `cur ≥ target` while the `done` channel is full:
no write, no pause, and `raise` never returns. -/
theorem raise_blocks_when_done_full {β σ : Type} (rt : Runtime β σ) (pool pgType : String)
    (target delta : Int) (done : Chan) (s s1 s2 : State σ) (j : β) (cur : Int)
    (hh : runCmd rt Cmd.health s = (.ok j, s1)) (hg : healthy rt j = some true)
    (hr : get rt pool pgType s1 = (.returned (cur, none), s2)) (hge : cur ≥ target)
    (hfull : ¬ done.len < done.cap) :
    raise rt pool pgType target delta done s = (.blocked, done, s2)
      ∧ tick rt pool pgType target delta done s =
        [Event.exec Cmd.health, Event.exec (Cmd.poolGet pool pgType)] := by
  have ht := trace_of_healthy_read rt pool pgType s s1 s2 j _ hh hr
  have hraise := raise_of_healthy_read rt pool pgType target delta done s s1 s2 j cur hh hg hr
  rw [if_pos hge, if_neg hfull] at hraise
  refine ⟨hraise, ?_⟩
  unfold tick
  rw [hraise]
  simp [ht]

/-- C6. Completion and idempotence, evaluated on the code: with `pg_num`
already at the target 1024 and a healthy cluster, the first tick of `run`
issues no write and no pause and buffers the completion signal; when the
`select` takes the ticker case once more before the `done` case, the second
tick again issues no write, but its `done <- true` finds the channel of
capacity 1 full: `raise` signals nothing and never returns. -/
theorem raise_blocks_on_repeated_completion :
    tick simRuntime "data" "pg_num" 1024 10 ⟨1, 0⟩ ⟨Cluster.steady mockHealthOKJSON 1024, []⟩
        = [Event.exec Cmd.health, Event.exec (Cmd.poolGet "data" "pg_num"), Event.send]
      ∧ (raise simRuntime "data" "pg_num" 1024 10 ⟨1, 0⟩
          ⟨Cluster.steady mockHealthOKJSON 1024, []⟩).1 = Ret.returned none
      ∧ (raise simRuntime "data" "pg_num" 1024 10 ⟨1, 0⟩
          ⟨Cluster.steady mockHealthOKJSON 1024, []⟩).2.1 = ⟨1, 1⟩
      ∧ tick simRuntime "data" "pg_num" 1024 10 ⟨1, 1⟩ ⟨Cluster.steady mockHealthOKJSON 1024, []⟩
        = [Event.exec Cmd.health, Event.exec (Cmd.poolGet "data" "pg_num")]
      ∧ (raise simRuntime "data" "pg_num" 1024 10 ⟨1, 1⟩
          ⟨Cluster.steady mockHealthOKJSON 1024, []⟩).1 = Ret.blocked
      ∧ (run simRuntime ⟨"data", 10, 1024, false⟩ "pg_num" [Select.ticker, Select.ticker]
          ⟨Cluster.steady mockHealthOKJSON 1024, []⟩).1 = RunResult.blocked
      ∧ (run simRuntime ⟨"data", 10, 1024, false⟩ "pg_num" [Select.ticker, Select.done]
          ⟨Cluster.steady mockHealthOKJSON 1024, []⟩).1 = RunResult.returned :=
  ⟨rfl, rfl, rfl, rfl, rfl, rfl, rfl⟩

/-- Every tick starts with the health command, and a tick that issues a write
fetched a snapshot that `healthy` accepted. -/
theorem tick_shape {β σ : Type} (rt : Runtime β σ) (pool pgType : String)
    (target delta : Int) (done : Chan) (s : State σ) :
    ∃ rest, tick rt pool pgType target delta done s = Event.exec Cmd.health :: rest ∧
      (writes rest ≠ [] →
        ∃ j s1, runCmd rt Cmd.health s = (.ok j, s1) ∧ healthy rt j = some true) := by
  unfold tick raise
  split
  · rename_i err s1 hh
    have h1 := runCmd_trace_of_eq rt _ s s1 _ hh
    exact ⟨[], by simp [h1], by simp [writes]⟩
  · rename_i j s1 hh
    have h1 := runCmd_trace_of_eq rt _ s s1 _ hh
    split
    · exact ⟨[], by simp [h1], by simp [writes]⟩
    · exact ⟨[], by simp [h1], by simp [writes]⟩
    · rename_i hg
      have hyes : ∃ j s1, runCmd rt Cmd.health s = (.ok j, s1) ∧ healthy rt j = some true :=
        ⟨j, s1, hh, hg⟩
      split
      all_goals rename_i s2 hr
      all_goals have h2 := (get_spec rt pool pgType s1 s2 _ hr).1
      · exact ⟨[Event.exec (Cmd.poolGet pool pgType)], by simp [h1, h2], fun _ => hyes⟩
      · exact ⟨[Event.exec (Cmd.poolGet pool pgType)], by simp [h1, h2], fun _ => hyes⟩
      · exact ⟨[Event.exec (Cmd.poolGet pool pgType)], by simp [h1, h2], fun _ => hyes⟩
      · exact ⟨[Event.exec (Cmd.poolGet pool pgType)], by simp [h1, h2], fun _ => hyes⟩
      · split_ifs
        · exact ⟨[Event.exec (Cmd.poolGet pool pgType), Event.send], by simp [h1, h2],
            fun _ => hyes⟩
        · exact ⟨[Event.exec (Cmd.poolGet pool pgType)], by simp [h1, h2], fun _ => hyes⟩
        · dsimp only
          split
          · rename_i err s3 hw
            have h3 := runCmd_trace_of_eq rt _ s2 s3 _ hw
            refine ⟨List.drop (s.trace.length + 1) s3.trace, ?_, fun _ => hyes⟩
            simp [h1, h2, h3]
          · rename_i out s3 hw
            have h3 := runCmd_trace_of_eq rt _ s2 s3 _ hw
            refine ⟨List.drop (s.trace.length + 1) (s3.trace ++ [Event.sleep 40]), ?_,
              fun _ => hyes⟩
            simp [h1, h2, h3]

/-- C7. Unhealthy tick is a pure no-op: when the health command succeeds and
`healthy` rejects the snapshot, `raise` returns no error, leaves the `done`
channel as it was and its only effect is the health command (no parameter read,
no write, no completion signal, no settle pause).  And in every tick, a write
is issued only after a health command of that tick returned a snapshot that
`healthy` accepted. -/
theorem raise_unhealthy_is_noop {β σ : Type} (rt : Runtime β σ) (pool pgType : String)
    (target delta : Int) (done : Chan) (s : State σ) :
    (∀ j s1, runCmd rt Cmd.health s = (.ok j, s1) → healthy rt j = some false →
        raise rt pool pgType target delta done s = (.returned none, done, s1) ∧
        tick rt pool pgType target delta done s = [Event.exec Cmd.health]) ∧
    (∀ pre n post,
        tick rt pool pgType target delta done s
          = pre ++ Event.exec (Cmd.poolSet pool pgType n) :: post →
        Event.exec Cmd.health ∈ pre ∧
          ∃ j s1, runCmd rt Cmd.health s = (.ok j, s1) ∧ healthy rt j = some true) := by
  constructor
  · intro j s1 hh hg
    have h1 := runCmd_trace_of_eq rt _ s s1 _ hh
    have hraise : raise rt pool pgType target delta done s = (.returned none, done, s1) := by
      unfold raise
      simp only [hh, hg]
    refine ⟨hraise, ?_⟩
    unfold tick
    rw [hraise]
    simp [h1]
  · intro pre n post hsplit
    obtain ⟨rest, hrest, hw⟩ := tick_shape rt pool pgType target delta done s
    rw [hrest] at hsplit
    cases pre with
    | nil => simp at hsplit
    | cons p pre =>
      simp only [List.cons_append, List.cons.injEq] at hsplit
      obtain ⟨hp, hrest2⟩ := hsplit
      refine ⟨by simp [← hp], hw ?_⟩
      rw [hrest2, writes_append]
      simp [writes]

/-- Witness for C7: the fixture with overall HEALTH_WARN and PG_AVAILABILITY
at HEALTH_WARN makes the tick a no-op, and the write of a healthy tick comes
after its health command. -/
theorem raise_unhealthy_is_noop_witness :
    (healthy simRuntime mockHealthAvailWarnJSON = some false ∧
      tick simRuntime "data" "pg_num" 1024 10 ⟨1, 0⟩
        ⟨Cluster.steady mockHealthAvailWarnJSON 1000, []⟩ = [Event.exec Cmd.health]) ∧
    (tick simRuntime "data" "pg_num" 1024 10 ⟨1, 0⟩ ⟨Cluster.steady mockHealthOKJSON 1000, []⟩
        = [Event.exec Cmd.health, Event.exec (Cmd.poolGet "data" "pg_num")]
          ++ Event.exec (Cmd.poolSet "data" "pg_num" 1010) :: [Event.sleep 40] ∧
      Event.exec Cmd.health
        ∈ [Event.exec Cmd.health, Event.exec (Cmd.poolGet "data" "pg_num")]) :=
  ⟨⟨rfl, ((raise_unhealthy_is_noop simRuntime "data" "pg_num" 1024 10 ⟨1, 0⟩
      ⟨Cluster.steady mockHealthAvailWarnJSON 1000, []⟩).1 _ _ rfl rfl).2⟩,
    rfl, ((raise_unhealthy_is_noop simRuntime "data" "pg_num" 1024 10 ⟨1, 0⟩
      ⟨Cluster.steady mockHealthOKJSON 1000, []⟩).2
        [Event.exec Cmd.health, Event.exec (Cmd.poolGet "data" "pg_num")] 1010
        [Event.sleep 40] rfl).1⟩

/-- C9, as stated, fails: it is not the case that for every `int64` value of
the delta flag a written value is at least the value read.  With delta `-5`,
target 1024 and a read of 100 the tick writes 95. -/
theorem raise_lowers_on_negative_delta :
    ¬ ∀ (target delta cur : Int), minInt64 ≤ delta → delta ≤ maxInt64 →
        minInt64 ≤ cur → cur ≤ maxInt64 →
        ∀ n ∈ writes (tick simRuntime "data" "pg_num" target delta ⟨1, 0⟩
            ⟨Cluster.steady mockHealthOKJSON cur, []⟩), cur ≤ n := by
  intro h
  have h95 := h 1024 (-5) 100 (by decide) (by decide) (by decide) (by decide) 95 (by decide)
  exact absurd h95 (by decide)

/-- C9, amended. No rollback for a step that is not negative: in every tick in
which `raise` read `cur`, for every target and every `delta ≥ 0` such that
`cur + delta` is within the `int64` range, every value written in the tick is
at least `cur`. -/
theorem raise_never_lowers {β σ : Type} (rt : Runtime β σ) (pool pgType : String)
    (target delta : Int) (done : Chan) (s s1 s2 : State σ) (j : β) (cur : Int)
    (hh : runCmd rt Cmd.health s = (.ok j, s1)) (hg : healthy rt j = some true)
    (hr : get rt pool pgType s1 = (.returned (cur, none), s2))
    (hd : 0 ≤ delta) (hfit : cur + delta ≤ maxInt64) :
    ∀ n ∈ writes (tick rt pool pgType target delta done s), cur ≤ n := by
  intro n hn
  by_cases hge : cur ≥ target
  · by_cases hroom : done.len < done.cap
    · rw [(raise_signals_done rt pool pgType target delta done s s1 s2 j cur
        hh hg hr hge hroom).2] at hn
      simp [writes] at hn
    · rw [(raise_blocks_when_done_full rt pool pgType target delta done s s1 s2 j cur
        hh hg hr hge hroom).2] at hn
      simp [writes] at hn
  · obtain ⟨tail, htail, ht⟩ :=
      tick_of_step rt pool pgType target delta done s s1 s2 j cur hh hg hr (by omega)
    have hrange := (get_spec rt pool pgType s1 s2 _ hr).2 cur rfl
    have hwrap : wrapInt64 (cur + delta) = cur + delta :=
      wrapInt64_of_range _ (by omega) hfit
    rw [ht, hwrap] at hn
    have hn2 : n = if cur + delta > target then target else cur + delta := by
      rcases htail with h | h <;> subst h <;> simpa [writes] using hn
    rw [hn2]
    split_ifs <;> omega

/-- Witness for C9 amended: with delta 10, target 1024 and a read of 1020 the
one value written, 1024, is not below 1020. -/
theorem raise_never_lowers_witness :
    ((0 : Int) ≤ 10 ∧ (1020 : Int) + 10 ≤ maxInt64) ∧
    ∀ n ∈ writes (tick simRuntime "data" "pg_num" 1024 10 ⟨1, 0⟩
      ⟨Cluster.steady mockHealthOKJSON 1020, []⟩), 1020 ≤ n :=
  ⟨⟨by decide, by decide⟩,
    raise_never_lowers simRuntime "data" "pg_num" 1024 10 ⟨1, 0⟩
      ⟨Cluster.steady mockHealthOKJSON 1020, []⟩ _ _ _ 1020 rfl rfl rfl
      (by decide) (by decide)⟩

/-! ## The check of the target -/


/-- The lowest bit of `a &&& b` is clear when that of `a` is. -/
theorem land_mod_two_of_even (a b : Nat) (h : a % 2 = 0) : (a &&& b) % 2 = 0 := by
  have h1 := Nat.testBit_zero (a &&& b)
  rw [Nat.testBit_land, Nat.testBit_zero, Nat.testBit_zero] at h1
  have : decide (a % 2 = 1) = false := by simp [h]
  rw [this, Bool.false_and] at h1
  have h2 := of_decide_eq_false h1.symm
  omega

/-- A positive natural number shares no bit with its predecessor exactly when
it is a power of two. -/
theorem land_pred_eq_zero_iff : ∀ n : Nat, 0 < n → (n &&& (n - 1) = 0 ↔ ∃ k, n = 2 ^ k) := by
  intro n
  induction n using Nat.strong_induction_on with
  | _ n ih =>
    intro hn
    have hdiv : (n &&& (n - 1)) / 2 = n / 2 &&& (n - 1) / 2 := Nat.and_div_two
    rcases Nat.mod_two_eq_zero_or_one n with he | ho
    · -- even
      have hm : 0 < n / 2 := by omega
      have hpred : (n - 1) / 2 = n / 2 - 1 := by omega
      have hmod := land_mod_two_of_even n (n - 1) he
      have hih := ih (n / 2) (by omega) hm
      rw [hpred] at hdiv
      constructor
      · intro h0
        rw [h0] at hdiv
        obtain ⟨k, hk⟩ := hih.mp (by omega)
        exact ⟨k + 1, by rw [pow_succ]; omega⟩
      · rintro ⟨k, hk⟩
        cases k with
        | zero => simp at hk; omega
        | succ k =>
          have : n / 2 = 2 ^ k := by rw [hk, pow_succ]; omega
          have h0 := hih.mpr ⟨k, this⟩
          rw [h0] at hdiv
          omega
    · -- odd
      have hpred : (n - 1) / 2 = n / 2 := by omega
      rw [hpred, Nat.and_self] at hdiv
      constructor
      · intro h0
        rw [h0] at hdiv
        exact ⟨0, by simp; omega⟩
      · rintro ⟨k, hk⟩
        cases k with
        | zero => simp at hk; subst hk; rfl
        | succ k => rw [pow_succ] at hk; omega

/-- Bit 63 of a 64-bit pattern that is at least `2 ^ 63`. -/
theorem testBit_63_of_ge (A : Nat) (h1 : 9223372036854775808 ≤ A)
    (h2 : A < 18446744073709551616) : A.testBit 63 = true := by
  have hA : A = 2 ^ 63 + (A - 9223372036854775808) := by norm_num; omega
  rw [hA, Nat.testBit_two_pow_add_eq, Nat.testBit_lt_two_pow (by norm_num; omega)]
  rfl

/-- The check rejects 0 and every negative `int64` other than the smallest. -/
theorem powerOfTwo_of_nonpos (n : Int) (hmin : minInt64 < n) (hn : n ≤ 0) :
    powerOfTwo n = false := by
  unfold minInt64 at hmin
  rcases eq_or_lt_of_le hn with h0 | hneg
  · subst h0; rfl
  · have hw : wrapInt64 (n - 1) = n - 1 :=
      wrapInt64_of_range _ (by unfold minInt64; omega) (by unfold maxInt64; omega)
    have hA1 : 9223372036854775808 ≤ toUint64 n := by unfold toUint64; omega
    have hA2 : toUint64 n < 18446744073709551616 := by unfold toUint64; omega
    have hB1 : 9223372036854775808 ≤ toUint64 (n - 1) := by unfold toUint64; omega
    have hB2 : toUint64 (n - 1) < 18446744073709551616 := by unfold toUint64; omega
    have hbit : (toUint64 n &&& toUint64 (n - 1)).testBit 63 = true := by
      rw [Nat.testBit_land, testBit_63_of_ge _ hA1 hA2, testBit_63_of_ge _ hB1 hB2]
      rfl
    have hge : toUint64 n &&& toUint64 (n - 1) ≥ 2 ^ 63 := Nat.testBit_implies_ge hbit
    have hlt : toUint64 n &&& toUint64 (n - 1) < 2 ^ 64 := Nat.and_lt_two_pow _ hB2
    have hand : and64 n (wrapInt64 (n - 1)) ≠ 0 := by
      rw [hw]
      unfold and64 wrapInt64
      simp only [Int.ofNat_eq_coe]
      norm_num at hge hlt
      omega
    unfold powerOfTwo
    simp [hand]

/-- C11, evaluated on the code: `powerOfTwo` accepts the smallest `int64`.
For `n = -2^63` the subtraction `n - 1` wraps to `2^63 - 1`, the two bit
patterns share no bit, and `n != 0 && n&(n-1) == 0` is true, although
`n ≤ 0`. -/
theorem powerOfTwo_minInt64 :
    minInt64 ≤ 0 ∧ wrapInt64 (minInt64 - 1) = maxInt64 ∧ and64 minInt64 maxInt64 = 0 ∧
      powerOfTwo minInt64 = true ∧
      [0, -2, -32].map powerOfTwo = [false, false, false] := by
  decide

theorem toUint64_natCast (N : Nat) (h : N < 9223372036854775808) : toUint64 (N : Int) = N := by
  unfold toUint64
  omega

/-- For a positive `int64` the test `n&(n-1) == 0` is the test on the natural
number `n`. -/
theorem and64_pred_natCast (N : Nat) (h0 : 0 < N) (h : N < 9223372036854775808) :
    and64 (N : Int) (wrapInt64 ((N : Int) - 1)) = ((N &&& (N - 1) : Nat) : Int) := by
  have hw : wrapInt64 ((N : Int) - 1) = ((N - 1 : Nat) : Int) := by
    rw [wrapInt64_of_range _ (by unfold minInt64; omega) (by unfold maxInt64; omega)]
    omega
  have hle : N &&& (N - 1) ≤ N := Nat.and_le_left
  unfold and64
  rw [hw, toUint64_natCast N h, toUint64_natCast (N - 1) (by omega)]
  exact wrapInt64_of_range _ (by unfold minInt64; simp only [Int.ofNat_eq_coe]; omega)
    (by unfold maxInt64; simp only [Int.ofNat_eq_coe]; omega)

/-- On a positive `int64`, given as a natural number, `powerOfTwo` is the test
for a power of two. -/
theorem powerOfTwo_natCast_iff (N : Nat) (h0 : 0 < N) (hN : N < 9223372036854775808) :
    powerOfTwo (N : Int) = true ↔ ∃ k : Nat, N = 2 ^ k := by
  have hne : ((N : Int) != 0) = true := by simp; omega
  unfold powerOfTwo
  rw [hne, Bool.true_and, and64_pred_natCast N h0 hN, beq_iff_eq]
  rw [show (((N &&& (N - 1) : Nat) : Int) = 0 ↔ N &&& (N - 1) = 0) by omega,
    land_pred_eq_zero_iff N h0]

/-- C12. For every `int64` `n > 0`, `powerOfTwo n` is true if and only if
`n = 2 ^ k` for some natural number `k` with `k ≤ 62`. -/
theorem powerOfTwo_iff_two_pow (n : Int) (hpos : 0 < n) (hmax : n ≤ maxInt64) :
    powerOfTwo n = true ↔ ∃ k : Nat, k ≤ 62 ∧ n = 2 ^ k := by
  obtain ⟨N, rfl⟩ := Int.eq_ofNat_of_zero_le (le_of_lt hpos)
  have h0 : 0 < N := by omega
  have hN : N < 9223372036854775808 := by unfold maxInt64 at hmax; omega
  rw [powerOfTwo_natCast_iff N h0 hN]
  constructor
  · rintro ⟨k, hk⟩
    refine ⟨k, ?_, by rw [hk]; push_cast; rfl⟩
    by_contra hgt
    have h63 : 2 ^ 63 ≤ 2 ^ k := Nat.pow_le_pow_right (by decide) (by omega)
    rw [← hk] at h63
    omega
  · rintro ⟨k, _, hk⟩
    exact ⟨k, by exact_mod_cast hk⟩

/-- Witness for C12: the positive numbers of `TestIsPowerOfTwo`. -/
theorem powerOfTwo_iff_two_pow_witness :
    ((0 : Int) < 1024 ∧ (1024 : Int) ≤ maxInt64) ∧
    (powerOfTwo 1024 = true ↔ ∃ k : Nat, k ≤ 62 ∧ (1024 : Int) = 2 ^ k) ∧
    [1, 2, 4, 1024].map powerOfTwo = [true, true, true, true] ∧
    [3, 7, 10, 20].map powerOfTwo = [false, false, false, false] :=
  ⟨⟨by decide, by decide⟩, powerOfTwo_iff_two_pow 1024 (by decide) (by decide),
    by decide, by decide⟩

/-! ## Errors and pauses of a tick -/

/-- The function `get` neither exits the process nor blocks. -/
theorem get_returns_or_panics {β σ : Type} (rt : Runtime β σ) (pool pgType : String)
    (s : State σ) :
    (get rt pool pgType s).1 = .panic ∨ ∃ v, (get rt pool pgType s).1 = .returned v := by
  unfold get
  split
  · exact Or.inr ⟨_, rfl⟩
  · split
    · exact Or.inr ⟨_, rfl⟩
    · split
      · exact Or.inr ⟨_, rfl⟩
      · exact Or.inr ⟨_, rfl⟩
      · exact Or.inl rfl

/-- The outcomes of a tick, case by case: the result of `raise`, the `done`
channel afterwards and the events of the tick. -/
theorem raise_cases {β σ : Type} (rt : Runtime β σ) (pool pgType : String)
    (target delta : Int) (done : Chan) (s : State σ) :
    (∃ err s1, runCmd rt Cmd.health s = (.error err, s1) ∧
      (∃ e, (raise rt pool pgType target delta done s).1 = .returned (some e)) ∧
      (raise rt pool pgType target delta done s).2.1 = done ∧
      tick rt pool pgType target delta done s = [Event.exec Cmd.health]) ∨
    (∃ j s1, runCmd rt Cmd.health s = (.ok j, s1) ∧ healthy rt j ≠ some true ∧
      (raise rt pool pgType target delta done s).1 ≠ .panic ∧
      (∀ e, (raise rt pool pgType target delta done s).1 ≠ .returned (some e)) ∧
      (raise rt pool pgType target delta done s).2.1 = done ∧
      tick rt pool pgType target delta done s = [Event.exec Cmd.health]) ∨
    (∃ j s1 s2, runCmd rt Cmd.health s = (.ok j, s1) ∧ healthy rt j = some true ∧
      get rt pool pgType s1 = (.panic, s2) ∧
      (raise rt pool pgType target delta done s).1 = .panic ∧
      (raise rt pool pgType target delta done s).2.1 = done ∧
      tick rt pool pgType target delta done s
        = [Event.exec Cmd.health, Event.exec (Cmd.poolGet pool pgType)]) ∨
    (∃ j s1 v err s2, runCmd rt Cmd.health s = (.ok j, s1) ∧ healthy rt j = some true ∧
      get rt pool pgType s1 = (.returned (v, some err), s2) ∧
      (raise rt pool pgType target delta done s).1 = .returned (some err) ∧
      (raise rt pool pgType target delta done s).2.1 = done ∧
      tick rt pool pgType target delta done s
        = [Event.exec Cmd.health, Event.exec (Cmd.poolGet pool pgType)]) ∨
    (∃ j s1 cur s2, runCmd rt Cmd.health s = (.ok j, s1) ∧ healthy rt j = some true ∧
      get rt pool pgType s1 = (.returned (cur, none), s2) ∧ cur ≥ target ∧
      ((raise rt pool pgType target delta done s).1 = .returned none ∨
        (raise rt pool pgType target delta done s).1 = .blocked) ∧
      (tick rt pool pgType target delta done s
          = [Event.exec Cmd.health, Event.exec (Cmd.poolGet pool pgType), Event.send] ∨
        tick rt pool pgType target delta done s
          = [Event.exec Cmd.health, Event.exec (Cmd.poolGet pool pgType)])) ∨
    (∃ j s1 cur s2 err s3, runCmd rt Cmd.health s = (.ok j, s1) ∧ healthy rt j = some true ∧
      get rt pool pgType s1 = (.returned (cur, none), s2) ∧ cur < target ∧
      runCmd rt (Cmd.poolSet pool pgType
        (if wrapInt64 (cur + delta) > target then target else wrapInt64 (cur + delta))) s2
          = (.error err, s3) ∧
      (raise rt pool pgType target delta done s).1 = .returned (some err) ∧
      (raise rt pool pgType target delta done s).2.1 = done ∧
      tick rt pool pgType target delta done s
        = [Event.exec Cmd.health, Event.exec (Cmd.poolGet pool pgType),
          Event.exec (Cmd.poolSet pool pgType
            (if wrapInt64 (cur + delta) > target then target else wrapInt64 (cur + delta)))]) ∨
    (∃ j s1 cur s2 out s3, runCmd rt Cmd.health s = (.ok j, s1) ∧ healthy rt j = some true ∧
      get rt pool pgType s1 = (.returned (cur, none), s2) ∧ cur < target ∧
      runCmd rt (Cmd.poolSet pool pgType
        (if wrapInt64 (cur + delta) > target then target else wrapInt64 (cur + delta))) s2
          = (.ok out, s3) ∧
      (raise rt pool pgType target delta done s).1 = .returned none ∧
      (raise rt pool pgType target delta done s).2.1 = done ∧
      tick rt pool pgType target delta done s
        = [Event.exec Cmd.health, Event.exec (Cmd.poolGet pool pgType),
          Event.exec (Cmd.poolSet pool pgType
            (if wrapInt64 (cur + delta) > target then target else wrapInt64 (cur + delta))),
          Event.sleep 40]) := by
  rcases hh : runCmd rt Cmd.health s with ⟨_ | _, s1⟩
  · rename_i err
    have h1 := runCmd_trace_of_eq rt _ s s1 _ hh
    refine Or.inl ⟨err, s1, rfl, ?_, ?_, ?_⟩ <;> simp [tick, raise, hh, h1]
  · rename_i j
    have h1 := runCmd_trace_of_eq rt _ s s1 _ hh
    rcases hg : healthy rt j with _ | _ | _
    · refine Or.inr (Or.inl ⟨j, s1, rfl, by simp [hg], ?_, ?_, ?_, ?_⟩) <;>
        simp [tick, raise, hh, hg, h1]
    · refine Or.inr (Or.inl ⟨j, s1, rfl, by simp [hg], ?_, ?_, ?_, ?_⟩) <;>
        simp [tick, raise, hh, hg, h1]
    · rcases hr : get rt pool pgType s1 with ⟨r, s2⟩
      have h2 := trace_of_healthy_read rt pool pgType s s1 s2 j r hh hr
      have hnot := get_returns_or_panics rt pool pgType s1
      rw [hr] at hnot
      rcases hnot with hp | ⟨⟨v, e⟩, hv⟩
      · simp only at hp
        subst hp
        refine Or.inr (Or.inr (Or.inl ⟨j, s1, s2, rfl, hg, hr, ?_, ?_, ?_⟩)) <;>
          simp [tick, raise, hh, hg, hr, h2]
      · simp only at hv
        subst hv
        cases e with
        | some err =>
          refine Or.inr (Or.inr (Or.inr (Or.inl ⟨j, s1, v, err, s2, rfl, hg, hr, ?_, ?_, ?_⟩)))
            <;> simp [tick, raise, hh, hg, hr, h2]
        | none =>
          have hraise := raise_of_healthy_read rt pool pgType target delta done s s1 s2 j v
            hh hg hr
          by_cases hge : v ≥ target
          · refine Or.inr (Or.inr (Or.inr (Or.inr (Or.inl
              ⟨j, s1, v, s2, rfl, hg, hr, hge, ?_, ?_⟩))))
            · rw [hraise, if_pos hge]
              split_ifs <;> simp
            · unfold tick
              rw [hraise, if_pos hge]
              split_ifs <;> simp [h2]
          · rw [if_neg hge] at hraise
            rcases hw : runCmd rt (Cmd.poolSet pool pgType
              (if wrapInt64 (v + delta) > target then target else wrapInt64 (v + delta))) s2
              with ⟨_ | _, s3⟩
            · rename_i err
              have h3 := runCmd_trace_of_eq rt _ s2 s3 _ hw
              rw [hw] at hraise
              refine Or.inr (Or.inr (Or.inr (Or.inr (Or.inr (Or.inl
                ⟨j, s1, v, s2, err, s3, rfl, hg, hr, not_le.mp hge, hw, ?_, ?_, ?_⟩)))))
                <;> simp [tick, hraise, h2, h3]
            · rename_i out
              have h3 := runCmd_trace_of_eq rt _ s2 s3 _ hw
              rw [hw] at hraise
              refine Or.inr (Or.inr (Or.inr (Or.inr (Or.inr (Or.inr
                ⟨j, s1, v, s2, out, s3, rfl, hg, hr, not_le.mp hge, hw, ?_, ?_, ?_⟩)))))
                <;> simp [tick, hraise, h2, h3]

/-- C13. Fatal-iff for one tick: `raise` returns an error if and only if the
health read fails, or the snapshot is accepted and the value read fails, or
the snapshot is accepted, the value read is below the target and the write
fails.  `run` turns a returned error into the exit with code 1.  In every error
case no completion is signalled, no pause happens and the `done` channel is
left as it was; a failed value read is followed by no write, and a failed write
is the only write of its tick. -/
theorem raise_error_iff {β σ : Type} (rt : Runtime β σ) (fl : Flags) (pgType : String)
    (done : Chan) (s : State σ) :
    ((∃ e, (raise rt fl.pool pgType fl.target fl.delta done s).1 = .returned (some e)) ↔
      ((∃ err s1, runCmd rt Cmd.health s = (.error err, s1)) ∨
        (∃ j s1 v err s2, runCmd rt Cmd.health s = (.ok j, s1) ∧ healthy rt j = some true ∧
          get rt fl.pool pgType s1 = (.returned (v, some err), s2)) ∨
        (∃ j s1 cur s2 err s3, runCmd rt Cmd.health s = (.ok j, s1) ∧
          healthy rt j = some true ∧
          get rt fl.pool pgType s1 = (.returned (cur, none), s2) ∧ cur < fl.target ∧
          runCmd rt (Cmd.poolSet fl.pool pgType
            (if wrapInt64 (cur + fl.delta) > fl.target then fl.target
              else wrapInt64 (cur + fl.delta))) s2 = (.error err, s3)))) ∧
    ((∃ e, (raise rt fl.pool pgType fl.target fl.delta done s).1 = .returned (some e)) →
      Event.send ∉ tick rt fl.pool pgType fl.target fl.delta done s ∧
      (∀ n, Event.sleep n ∉ tick rt fl.pool pgType fl.target fl.delta done s) ∧
      (raise rt fl.pool pgType fl.target fl.delta done s).2.1 = done ∧
      ∀ rest, (runLoop rt fl pgType (Select.ticker :: rest) done s).1 = RunResult.exit 1) ∧
    (∀ j s1 v err s2, runCmd rt Cmd.health s = (.ok j, s1) → healthy rt j = some true →
      get rt fl.pool pgType s1 = (.returned (v, some err), s2) →
      writes (tick rt fl.pool pgType fl.target fl.delta done s) = []) ∧
    (∀ j s1 cur s2 err s3, runCmd rt Cmd.health s = (.ok j, s1) → healthy rt j = some true →
      get rt fl.pool pgType s1 = (.returned (cur, none), s2) → cur < fl.target →
      runCmd rt (Cmd.poolSet fl.pool pgType
        (if wrapInt64 (cur + fl.delta) > fl.target then fl.target
          else wrapInt64 (cur + fl.delta))) s2 = (.error err, s3) →
      writes (tick rt fl.pool pgType fl.target fl.delta done s)
        = [if wrapInt64 (cur + fl.delta) > fl.target then fl.target
            else wrapInt64 (cur + fl.delta)]) := by
  have hexit : (∃ e, (raise rt fl.pool pgType fl.target fl.delta done s).1 = .returned (some e)) →
      ∀ rest, (runLoop rt fl pgType (Select.ticker :: rest) done s).1 = RunResult.exit 1 := by
    rintro ⟨e, he⟩ rest
    unfold runLoop
    generalize raise rt fl.pool pgType fl.target fl.delta done s = r at he
    obtain ⟨ret, done1, s1⟩ := r
    simp only at he
    subst he
    rfl
  rcases raise_cases rt fl.pool pgType fl.target fl.delta done s with
    ⟨err, s1, hh, hret, hdone, ht⟩ | ⟨j, s1, hh, hg, hnp, hret, hdone, ht⟩ |
    ⟨j, s1, s2, hh, hg, hr, hret, hdone, ht⟩ | ⟨j, s1, v, err, s2, hh, hg, hr, hret, hdone, ht⟩ |
    ⟨j, s1, cur, s2, hh, hg, hr, hge, hret, ht⟩ |
    ⟨j, s1, cur, s2, err, s3, hh, hg, hr, hlt, hw, hret, hdone, ht⟩ |
    ⟨j, s1, cur, s2, out, s3, hh, hg, hr, hlt, hw, hret, hdone, ht⟩
  · refine ⟨⟨fun _ => Or.inl ⟨err, s1, hh⟩, fun _ => hret⟩, fun h => ⟨?_, ?_, hdone, hexit h⟩,
      ?_, ?_⟩
    · simp [ht]
    · simp [ht]
    · intro j' s1' v' err' s2' hh'
      rw [hh] at hh'
      simp at hh'
    · intro j' s1' c' s2' err' s3' hh'
      rw [hh] at hh'
      simp at hh'
  · have hno : ¬ ∃ e, (raise rt fl.pool pgType fl.target fl.delta done s).1
        = .returned (some e) := fun ⟨e, he⟩ => hret e he
    refine ⟨⟨fun h => absurd h hno, ?_⟩, fun h => absurd h hno, ?_, ?_⟩
    · rintro (⟨err', s1', hh'⟩ | ⟨j', s1', v', err', s2', hh', hg', _⟩ |
        ⟨j', s1', c', s2', err', s3', hh', hg', _⟩)
      · rw [hh] at hh'; simp at hh'
      · rw [hh] at hh'
        simp only [Prod.mk.injEq, Except.ok.injEq] at hh'
        rw [← hh'.1] at hg'
        exact absurd hg' hg
      · rw [hh] at hh'
        simp only [Prod.mk.injEq, Except.ok.injEq] at hh'
        rw [← hh'.1] at hg'
        exact absurd hg' hg
    · intro j' s1' v' err' s2' hh' hg'
      rw [hh] at hh'
      simp only [Prod.mk.injEq, Except.ok.injEq] at hh'
      rw [← hh'.1] at hg'
      exact absurd hg' hg
    · intro j' s1' c' s2' err' s3' hh' hg'
      rw [hh] at hh'
      simp only [Prod.mk.injEq, Except.ok.injEq] at hh'
      rw [← hh'.1] at hg'
      exact absurd hg' hg
  · have hno : ¬ ∃ e, (raise rt fl.pool pgType fl.target fl.delta done s).1
        = .returned (some e) := by
      rintro ⟨e, he⟩
      rw [hret] at he
      simp at he
    refine ⟨⟨fun h => absurd h hno, ?_⟩, fun h => absurd h hno, ?_, ?_⟩
    · rintro (⟨err', s1', hh'⟩ | ⟨j', s1', v', err', s2', hh', hg', hr'⟩ |
        ⟨j', s1', c', s2', err', s3', hh', hg', hr', _⟩)
      · rw [hh] at hh'; simp at hh'
      · rw [hh] at hh'
        simp only [Prod.mk.injEq, Except.ok.injEq] at hh'
        rw [← hh'.2, hr] at hr'
        simp at hr'
      · rw [hh] at hh'
        simp only [Prod.mk.injEq, Except.ok.injEq] at hh'
        rw [← hh'.2, hr] at hr'
        simp at hr'
    · intro j' s1' v' err' s2' hh' hg' hr'
      rw [hh] at hh'
      simp only [Prod.mk.injEq, Except.ok.injEq] at hh'
      rw [← hh'.2, hr] at hr'
      simp at hr'
    · intro j' s1' c' s2' err' s3' hh' hg' hr'
      rw [hh] at hh'
      simp only [Prod.mk.injEq, Except.ok.injEq] at hh'
      rw [← hh'.2, hr] at hr'
      simp at hr'
  · refine ⟨⟨fun _ => Or.inr (Or.inl ⟨j, s1, v, err, s2, hh, hg, hr⟩), fun _ => ⟨err, hret⟩⟩,
      fun h => ⟨?_, ?_, hdone, hexit h⟩, ?_, ?_⟩
    · simp [ht]
    · simp [ht]
    · intro _ _ _ _ _ _ _ _
      simp [ht, writes]
    · intro j' s1' c' s2' err' s3' hh' hg' hr'
      rw [hh] at hh'
      simp only [Prod.mk.injEq, Except.ok.injEq] at hh'
      rw [← hh'.2, hr] at hr'
      simp at hr'
  · have hno : ¬ ∃ e, (raise rt fl.pool pgType fl.target fl.delta done s).1
        = .returned (some e) := by
      rintro ⟨e, he⟩
      rcases hret with h | h <;> rw [h] at he <;> simp at he
    refine ⟨⟨fun h => absurd h hno, ?_⟩, fun h => absurd h hno, ?_, ?_⟩
    · rintro (⟨err', s1', hh'⟩ | ⟨j', s1', v', err', s2', hh', hg', hr'⟩ |
        ⟨j', s1', c', s2', err', s3', hh', hg', hr', hlt', _⟩)
      · rw [hh] at hh'; simp at hh'
      · rw [hh] at hh'
        simp only [Prod.mk.injEq, Except.ok.injEq] at hh'
        rw [← hh'.2, hr] at hr'
        simp at hr'
      · rw [hh] at hh'
        simp only [Prod.mk.injEq, Except.ok.injEq] at hh'
        rw [← hh'.2, hr] at hr'
        simp only [Prod.mk.injEq, Ret.returned.injEq, and_true] at hr'
        omega
    · intro j' s1' v' err' s2' hh' hg' hr'
      rw [hh] at hh'
      simp only [Prod.mk.injEq, Except.ok.injEq] at hh'
      rw [← hh'.2, hr] at hr'
      simp at hr'
    · intro j' s1' c' s2' err' s3' hh' hg' hr' hlt'
      rw [hh] at hh'
      simp only [Prod.mk.injEq, Except.ok.injEq] at hh'
      rw [← hh'.2, hr] at hr'
      simp only [Prod.mk.injEq, Ret.returned.injEq, and_true] at hr'
      omega
  · refine ⟨⟨fun _ => Or.inr (Or.inr ⟨j, s1, cur, s2, err, s3, hh, hg, hr, hlt, hw⟩),
      fun _ => ⟨err, hret⟩⟩, fun h => ⟨?_, ?_, hdone, hexit h⟩, ?_, ?_⟩
    · simp [ht]
    · simp [ht]
    · intro j' s1' v' err' s2' hh' hg' hr'
      rw [hh] at hh'
      simp only [Prod.mk.injEq, Except.ok.injEq] at hh'
      rw [← hh'.2, hr] at hr'
      simp at hr'
    · intro j' s1' c' s2' err' s3' hh' hg' hr' _ _
      rw [hh] at hh'
      simp only [Prod.mk.injEq, Except.ok.injEq] at hh'
      rw [← hh'.2, hr] at hr'
      simp only [Prod.mk.injEq, Ret.returned.injEq, and_true] at hr'
      rw [ht, ← hr'.1]
      simp [writes]
  · have hno : ¬ ∃ e, (raise rt fl.pool pgType fl.target fl.delta done s).1
        = .returned (some e) := by
      rintro ⟨e, he⟩
      rw [hret] at he
      simp at he
    refine ⟨⟨fun h => absurd h hno, ?_⟩, fun h => absurd h hno, ?_, ?_⟩
    · rintro (⟨err', s1', hh'⟩ | ⟨j', s1', v', err', s2', hh', hg', hr'⟩ |
        ⟨j', s1', c', s2', err', s3', hh', hg', hr', hlt', hw'⟩)
      · rw [hh] at hh'; simp at hh'
      · rw [hh] at hh'
        simp only [Prod.mk.injEq, Except.ok.injEq] at hh'
        rw [← hh'.2, hr] at hr'
        simp at hr'
      · rw [hh] at hh'
        simp only [Prod.mk.injEq, Except.ok.injEq] at hh'
        rw [← hh'.2, hr] at hr'
        simp only [Prod.mk.injEq, Ret.returned.injEq, and_true] at hr'
        rw [← hr'.1, ← hr'.2, hw] at hw'
        simp at hw'
    · intro j' s1' v' err' s2' hh' hg' hr'
      rw [hh] at hh'
      simp only [Prod.mk.injEq, Except.ok.injEq] at hh'
      rw [← hh'.2, hr] at hr'
      simp at hr'
    · intro j' s1' c' s2' err' s3' hh' hg' hr' hlt' hw'
      rw [hh] at hh'
      simp only [Prod.mk.injEq, Except.ok.injEq] at hh'
      rw [← hh'.2, hr] at hr'
      simp only [Prod.mk.injEq, Ret.returned.injEq, and_true] at hr'
      rw [← hr'.1, ← hr'.2, hw] at hw'
      simp at hw'

theorem pausedAfterWrites_append (a b : List Event) (ha : pausedAfterWrites a = true)
    (hb : pausedAfterWrites b = true) : pausedAfterWrites (a ++ b) = true := by
  induction a with
  | nil => simpa using hb
  | cons e rest ih =>
    simp only [pausedAfterWrites, Bool.and_eq_true, Bool.or_eq_true, decide_eq_true_eq] at ha
    simp only [List.cons_append, pausedAfterWrites, Bool.and_eq_true, Bool.or_eq_true,
      decide_eq_true_eq]
    refine ⟨?_, ih ha.2⟩
    rcases ha.1 with h | h
    · exact Or.inl h
    · right
      cases rest with
      | nil => simp at h
      | cons x xs => simpa using h

theorem settledTrace_append (a b : List Event) (ha : pausedAfterWrites a = true)
    (hb : settledTrace b = true) : settledTrace (a ++ b) = true := by
  induction a with
  | nil => simpa using hb
  | cons e rest ih =>
    simp only [pausedAfterWrites, Bool.and_eq_true, Bool.or_eq_true, decide_eq_true_eq] at ha
    simp only [List.cons_append, settledTrace, Bool.and_eq_true, Bool.or_eq_true,
      decide_eq_true_eq]
    refine ⟨?_, ih ha.2⟩
    rcases ha.1 with h | h
    · exact Or.inl (Or.inl h)
    · right
      cases rest with
      | nil => simp at h
      | cons x xs => simpa using h

theorem settledTrace_of_paused (a : List Event) (ha : pausedAfterWrites a = true) :
    settledTrace a = true := by
  have := settledTrace_append a [] ha rfl
  simpa using this

/-- What `settledTrace` says about each write on the trace. -/
theorem settledTrace_spec (tr : List Event) (h : settledTrace tr = true) :
    ∀ pre w post, tr = pre ++ w :: post → w.isWrite = true →
      post = [] ∨ ∃ rest, post = Event.sleep 40 :: rest := by
  intro pre
  induction pre generalizing tr with
  | nil =>
    intro w post htr hw
    subst htr
    simp only [List.nil_append, settledTrace, hw, Bool.not_true, Bool.false_or,
      Bool.and_eq_true, Bool.or_eq_true, decide_eq_true_eq, List.isEmpty_iff] at h
    rcases h.1 with h1 | h1
    · exact Or.inl h1
    · right
      cases post with
      | nil => simp at h1
      | cons x xs =>
        simp only [List.head?_cons, Option.some.injEq] at h1
        exact ⟨xs, by rw [h1]⟩
  | cons e pre ih =>
    intro w post htr hw
    subst htr
    simp only [List.cons_append, settledTrace, Bool.and_eq_true] at h
    exact ih _ h.2 w post rfl hw

/-- The trace after a tick is the trace before it followed by the events of
the tick. -/
theorem raise_trace {β σ : Type} (rt : Runtime β σ) (pool pgType : String)
    (target delta : Int) (done : Chan) (s : State σ) :
    (raise rt pool pgType target delta done s).2.2.trace
      = s.trace ++ tick rt pool pgType target delta done s := by
  have hex : ∃ evs, (raise rt pool pgType target delta done s).2.2.trace = s.trace ++ evs := by
    rcases hh : runCmd rt Cmd.health s with ⟨_ | _, s1⟩
    · have h1 := runCmd_trace_of_eq rt _ s s1 _ hh
      exact ⟨_, by simp only [raise, hh, h1]; rfl⟩
    · rename_i j
      have h1 := runCmd_trace_of_eq rt _ s s1 _ hh
      rcases hg : healthy rt j with _ | _ | _
      · exact ⟨_, by simp only [raise, hh, hg, h1]; rfl⟩
      · exact ⟨_, by simp only [raise, hh, hg, h1]; rfl⟩
      · rcases hr : get rt pool pgType s1 with ⟨r, s2⟩
        have h2 := trace_of_healthy_read rt pool pgType s s1 s2 j r hh hr
        cases r with
        | fatal => exact ⟨_, by simp only [raise, hh, hg, hr, h2]; rfl⟩
        | blocked => exact ⟨_, by simp only [raise, hh, hg, hr, h2]; rfl⟩
        | panic => exact ⟨_, by simp only [raise, hh, hg, hr, h2]; rfl⟩
        | returned v =>
          obtain ⟨cur, e⟩ := v
          cases e with
          | some err => exact ⟨_, by simp only [raise, hh, hg, hr, h2]; rfl⟩
          | none =>
            rw [raise_of_healthy_read rt pool pgType target delta done s s1 s2 j cur hh hg hr]
            by_cases hge : cur ≥ target
            · rw [if_pos hge]
              by_cases hroom : done.len < done.cap
              · rw [if_pos hroom]
                exact ⟨[Event.exec Cmd.health, Event.exec (Cmd.poolGet pool pgType),
                  Event.send], by simp [h2]⟩
              · rw [if_neg hroom]
                exact ⟨_, h2⟩
            · rw [if_neg hge]
              rcases hw : runCmd rt (Cmd.poolSet pool pgType
                (if wrapInt64 (cur + delta) > target then target else wrapInt64 (cur + delta)))
                s2 with ⟨_ | _, s3⟩
              · have h3 := runCmd_trace_of_eq rt _ s2 s3 _ hw
                exact ⟨[Event.exec Cmd.health, Event.exec (Cmd.poolGet pool pgType),
                  Event.exec (Cmd.poolSet pool pgType (if wrapInt64 (cur + delta) > target
                    then target else wrapInt64 (cur + delta)))], by simp [h2, h3]⟩
              · have h3 := runCmd_trace_of_eq rt _ s2 s3 _ hw
                exact ⟨[Event.exec Cmd.health, Event.exec (Cmd.poolGet pool pgType),
                  Event.exec (Cmd.poolSet pool pgType (if wrapInt64 (cur + delta) > target
                    then target else wrapInt64 (cur + delta))), Event.sleep 40],
                  by simp [h2, h3]⟩
  obtain ⟨evs, h⟩ := hex
  unfold tick
  rw [h]
  simp

/-- The events of a tick are settled, and paused when `raise` returns no error. -/
theorem tick_paced {β σ : Type} (rt : Runtime β σ) (pool pgType : String)
    (target delta : Int) (done : Chan) (s : State σ) :
    settledTrace (tick rt pool pgType target delta done s) = true ∧
      ((raise rt pool pgType target delta done s).1 = .returned none →
        pausedAfterWrites (tick rt pool pgType target delta done s) = true) := by
  rcases raise_cases rt pool pgType target delta done s with
    ⟨err, s1, hh, hret, hdone, ht⟩ | ⟨j, s1, hh, hg, hnp, hret, hdone, ht⟩ |
    ⟨j, s1, s2, hh, hg, hr, hret, hdone, ht⟩ | ⟨j, s1, v, err, s2, hh, hg, hr, hret, hdone, ht⟩ |
    ⟨j, s1, cur, s2, hh, hg, hr, hge, hret, ht⟩ |
    ⟨j, s1, cur, s2, err, s3, hh, hg, hr, hlt, hw, hret, hdone, ht⟩ |
    ⟨j, s1, cur, s2, out, s3, hh, hg, hr, hlt, hw, hret, hdone, ht⟩
  · rw [ht]; exact ⟨rfl, fun _ => rfl⟩
  · rw [ht]; exact ⟨rfl, fun _ => rfl⟩
  · rw [ht]; exact ⟨rfl, fun _ => rfl⟩
  · rw [ht]; exact ⟨rfl, fun _ => rfl⟩
  · rcases ht with ht | ht <;> rw [ht] <;> exact ⟨rfl, fun _ => rfl⟩
  · rw [ht]
    refine ⟨rfl, fun h => ?_⟩
    rw [hret] at h
    simp at h
  · rw [ht]; exact ⟨rfl, fun _ => rfl⟩

/-- The loop of `run` keeps the trace settled, and paused when it returns. -/
theorem runLoop_paced {β σ : Type} (rt : Runtime β σ) (fl : Flags) (pgType : String)
    (schedule : List Select) :
    ∀ (done : Chan) (s : State σ), pausedAfterWrites s.trace = true →
      settledTrace (runLoop rt fl pgType schedule done s).2.trace = true ∧
      ((runLoop rt fl pgType schedule done s).1 = RunResult.returned →
        pausedAfterWrites (runLoop rt fl pgType schedule done s).2.trace = true) := by
  induction schedule with
  | nil =>
    intro done s hs
    exact ⟨settledTrace_of_paused _ hs, fun h => by simp [runLoop] at h⟩
  | cons x rest ih =>
    intro done s hs
    cases x with
    | ticker =>
      have htr := raise_trace rt fl.pool pgType fl.target fl.delta done s
      obtain ⟨hset, hpau⟩ := tick_paced rt fl.pool pgType fl.target fl.delta done s
      unfold runLoop
      generalize tick rt fl.pool pgType fl.target fl.delta done s = evs at htr hset hpau
      generalize raise rt fl.pool pgType fl.target fl.delta done s = r at htr hpau
      obtain ⟨ret, done1, s1⟩ := r
      simp only at htr hpau
      have hsettled : settledTrace s1.trace = true := by
        rw [htr]; exact settledTrace_append _ _ hs hset
      cases ret with
      | returned v =>
        cases v with
        | none =>
          exact ih done1 s1 (by rw [htr]; exact pausedAfterWrites_append _ _ hs (hpau rfl))
        | some err => exact ⟨hsettled, fun h => by simp at h⟩
      | fatal => exact ⟨hsettled, fun h => by simp at h⟩
      | blocked => exact ⟨hsettled, fun h => by simp at h⟩
      | panic => exact ⟨hsettled, fun h => by simp at h⟩
    | done =>
      unfold runLoop
      split_ifs
      · have hp : pausedAfterWrites (s.trace ++ [Event.recv]) = true :=
          pausedAfterWrites_append _ _ hs rfl
        exact ⟨settledTrace_of_paused _ hp, fun _ => hp⟩
      · exact ih done s hs
    | signal =>
      exact ⟨by simpa [runLoop] using settledTrace_of_paused _ hs,
        fun h => by simp [runLoop] at h⟩

/-- Witness for C13: on a cluster whose health command fails, whose read fails
or whose write fails `raise` returns an error, and on the healthy cluster it
returns none. -/
theorem raise_error_iff_witness :
    (∃ e, (raise (faultyRuntime (fun c => decide (c = Cmd.health))) "data" "pg_num" 1024 10
      ⟨1, 0⟩ ⟨Cluster.steady mockHealthOKJSON 1000, []⟩).1 = .returned (some e)) ∧
    (∃ e, (raise (faultyRuntime (fun c => decide (c = Cmd.poolGet "data" "pg_num")))
      "data" "pg_num" 1024 10 ⟨1, 0⟩ ⟨Cluster.steady mockHealthOKJSON 1000, []⟩).1
        = .returned (some e)) ∧
    (∃ e, (raise (faultyRuntime (fun c => decide (c = Cmd.poolSet "data" "pg_num" 1010)))
      "data" "pg_num" 1024 10 ⟨1, 0⟩ ⟨Cluster.steady mockHealthOKJSON 1000, []⟩).1
        = .returned (some e)) ∧
    writes (tick (faultyRuntime (fun c => decide (c = Cmd.poolSet "data" "pg_num" 1010)))
      "data" "pg_num" 1024 10 ⟨1, 0⟩ ⟨Cluster.steady mockHealthOKJSON 1000, []⟩) = [1010] ∧
    ¬ ∃ e, (raise simRuntime "data" "pg_num" 1024 10
      ⟨1, 0⟩ ⟨Cluster.steady mockHealthOKJSON 1000, []⟩).1 = .returned (some e) :=
  ⟨(raise_error_iff (faultyRuntime (fun c => decide (c = Cmd.health)))
      ⟨"data", 10, 1024, false⟩ "pg_num" ⟨1, 0⟩
      ⟨Cluster.steady mockHealthOKJSON 1000, []⟩).1.mpr (Or.inl ⟨_, _, rfl⟩),
    (raise_error_iff (faultyRuntime (fun c => decide (c = Cmd.poolGet "data" "pg_num")))
      ⟨"data", 10, 1024, false⟩ "pg_num" ⟨1, 0⟩
      ⟨Cluster.steady mockHealthOKJSON 1000, []⟩).1.mpr
        (Or.inr (Or.inl ⟨_, _, _, _, _, rfl, rfl, rfl⟩)),
    (raise_error_iff (faultyRuntime (fun c => decide (c = Cmd.poolSet "data" "pg_num" 1010)))
      ⟨"data", 10, 1024, false⟩ "pg_num" ⟨1, 0⟩
      ⟨Cluster.steady mockHealthOKJSON 1000, []⟩).1.mpr
        (Or.inr (Or.inr ⟨_, _, 1000, _, _, _, rfl, rfl, rfl, by decide, rfl⟩)),
    (raise_error_iff (faultyRuntime (fun c => decide (c = Cmd.poolSet "data" "pg_num" 1010)))
      ⟨"data", 10, 1024, false⟩ "pg_num" ⟨1, 0⟩
      ⟨Cluster.steady mockHealthOKJSON 1000, []⟩).2.2.2 _ _ 1000 _ _ _ rfl rfl rfl
        (by decide) rfl,
    by
      rintro ⟨e, he⟩
      have h0 : (raise simRuntime "data" "pg_num" 1024 10
          ⟨1, 0⟩ ⟨Cluster.steady mockHealthOKJSON 1000, []⟩).1 = Ret.returned none := rfl
      rw [h0] at he
      cases he⟩

/-- C14. Settle after every write: in every tick of `raise` the pause of 40
seconds is performed if and only if a write command was issued and succeeded in
that tick; it is the only pause of the tick, comes directly after the write and
is the last effect before `raise` returns.  Hence on the trace of a phase run
every write that is followed by anything is followed by that pause, and two
writes always have a settle pause between them. -/
theorem settle_after_every_write {β σ : Type} (rt : Runtime β σ) (fl : Flags)
    (pgType : String) (done : Chan) (s : State σ) :
    (Event.sleep 40 ∈ tick rt fl.pool pgType fl.target fl.delta done s ↔
      ∃ j s1 cur s2 out s3, runCmd rt Cmd.health s = (.ok j, s1) ∧ healthy rt j = some true ∧
        get rt fl.pool pgType s1 = (.returned (cur, none), s2) ∧ cur < fl.target ∧
        runCmd rt (Cmd.poolSet fl.pool pgType
          (if wrapInt64 (cur + fl.delta) > fl.target then fl.target
            else wrapInt64 (cur + fl.delta))) s2 = (.ok out, s3)) ∧
    (∀ n, Event.sleep n ∈ tick rt fl.pool pgType fl.target fl.delta done s →
      n = 40 ∧ (raise rt fl.pool pgType fl.target fl.delta done s).1 = .returned none ∧
      ∃ w, tick rt fl.pool pgType fl.target fl.delta done s
        = [Event.exec Cmd.health, Event.exec (Cmd.poolGet fl.pool pgType),
          Event.exec (Cmd.poolSet fl.pool pgType w), Event.sleep 40]) ∧
    (∀ schedule, pausedAfterWrites s.trace = true →
      (∀ pre w post, (run rt fl pgType schedule s).2.trace = pre ++ w :: post →
        w.isWrite = true → post = [] ∨ ∃ rest, post = Event.sleep 40 :: rest) ∧
      (∀ a w1 b w2 c, (run rt fl pgType schedule s).2.trace = a ++ w1 :: (b ++ w2 :: c) →
        w1.isWrite = true → w2.isWrite = true → Event.sleep 40 ∈ b)) := by
  refine ⟨?_, ?_, ?_⟩
  · rcases raise_cases rt fl.pool pgType fl.target fl.delta done s with
      ⟨err, s1, hh, hret, hdone, ht⟩ | ⟨j, s1, hh, hg, hnp, hret, hdone, ht⟩ |
      ⟨j, s1, s2, hh, hg, hr, hret, hdone, ht⟩ |
      ⟨j, s1, v, err, s2, hh, hg, hr, hret, hdone, ht⟩ |
      ⟨j, s1, cur, s2, hh, hg, hr, hge, hret, ht⟩ |
      ⟨j, s1, cur, s2, err, s3, hh, hg, hr, hlt, hw, hret, hdone, ht⟩ |
      ⟨j, s1, cur, s2, out, s3, hh, hg, hr, hlt, hw, hret, hdone, ht⟩
    · constructor
      · intro h; rw [ht] at h; simp at h
      · rintro ⟨j', s1', c', s2', o', s3', hh', _⟩
        rw [hh] at hh'; simp at hh'
    · constructor
      · intro h; rw [ht] at h; simp at h
      · rintro ⟨j', s1', c', s2', o', s3', hh', hg', _⟩
        rw [hh] at hh'
        simp only [Prod.mk.injEq, Except.ok.injEq] at hh'
        rw [← hh'.1] at hg'
        exact absurd hg' hg
    · constructor
      · intro h; rw [ht] at h; simp at h
      · rintro ⟨j', s1', c', s2', o', s3', hh', hg', hr', _⟩
        rw [hh] at hh'
        simp only [Prod.mk.injEq, Except.ok.injEq] at hh'
        rw [← hh'.2, hr] at hr'
        simp at hr'
    · constructor
      · intro h; rw [ht] at h; simp at h
      · rintro ⟨j', s1', c', s2', o', s3', hh', hg', hr', _⟩
        rw [hh] at hh'
        simp only [Prod.mk.injEq, Except.ok.injEq] at hh'
        rw [← hh'.2, hr] at hr'
        simp at hr'
    · constructor
      · intro h; rcases ht with ht | ht <;> rw [ht] at h <;> simp at h
      · rintro ⟨j', s1', c', s2', o', s3', hh', hg', hr', hlt', _⟩
        rw [hh] at hh'
        simp only [Prod.mk.injEq, Except.ok.injEq] at hh'
        rw [← hh'.2, hr] at hr'
        simp only [Prod.mk.injEq, Ret.returned.injEq, and_true] at hr'
        omega
    · constructor
      · intro h; rw [ht] at h; simp at h
      · rintro ⟨j', s1', c', s2', o', s3', hh', hg', hr', hlt', hw'⟩
        rw [hh] at hh'
        simp only [Prod.mk.injEq, Except.ok.injEq] at hh'
        rw [← hh'.2, hr] at hr'
        simp only [Prod.mk.injEq, Ret.returned.injEq, and_true] at hr'
        rw [← hr'.1, ← hr'.2, hw] at hw'
        simp at hw'
    · exact ⟨fun _ => ⟨j, s1, cur, s2, out, s3, hh, hg, hr, hlt, hw⟩,
        fun _ => by rw [ht]; simp⟩
  · intro n hn
    rcases raise_cases rt fl.pool pgType fl.target fl.delta done s with
      ⟨err, s1, hh, hret, hdone, ht⟩ | ⟨j, s1, hh, hg, hnp, hret, hdone, ht⟩ |
      ⟨j, s1, s2, hh, hg, hr, hret, hdone, ht⟩ |
      ⟨j, s1, v, err, s2, hh, hg, hr, hret, hdone, ht⟩ |
      ⟨j, s1, cur, s2, hh, hg, hr, hge, hret, ht⟩ |
      ⟨j, s1, cur, s2, err, s3, hh, hg, hr, hlt, hw, hret, hdone, ht⟩ |
      ⟨j, s1, cur, s2, out, s3, hh, hg, hr, hlt, hw, hret, hdone, ht⟩
    · rw [ht] at hn; simp at hn
    · rw [ht] at hn; simp at hn
    · rw [ht] at hn; simp at hn
    · rw [ht] at hn; simp at hn
    · rcases ht with ht | ht <;> rw [ht] at hn <;> simp at hn
    · rw [ht] at hn; simp at hn
    · refine ⟨?_, hret, _, ht⟩
      rw [ht] at hn
      simpa using hn
  · intro schedule hs
    have hsettled := (runLoop_paced rt fl pgType schedule ⟨1, 0⟩ s hs).1
    have hspec := settledTrace_spec _ hsettled
    refine ⟨hspec, ?_⟩
    intro a w1 b w2 c htr h1 h2
    rcases hspec a w1 (b ++ w2 :: c) htr h1 with hnil | ⟨rest, hrest⟩
    · simp at hnil
    · cases b with
      | nil =>
        simp only [List.nil_append, List.cons.injEq] at hrest
        rw [hrest.1] at h2
        simp [Event.isWrite] at h2
      | cons x xs =>
        simp only [List.cons_append, List.cons.injEq] at hrest
        simp [hrest.1]

/-- Witness for C14: the write that reaches the target, 1020 to 1024, is
followed by the pause, and in the run from 1000 the three writes are each
followed by it. -/
theorem settle_after_every_write_witness :
    Event.sleep 40 ∈ tick simRuntime "data" "pg_num" 1024 10 ⟨1, 0⟩
      ⟨Cluster.steady mockHealthOKJSON 1020, []⟩ ∧
    tick simRuntime "data" "pg_num" 1024 10 ⟨1, 0⟩ ⟨Cluster.steady mockHealthOKJSON 1020, []⟩
      = [Event.exec Cmd.health, Event.exec (Cmd.poolGet "data" "pg_num"),
        Event.exec (Cmd.poolSet "data" "pg_num" 1024), Event.sleep 40] ∧
    Event.sleep 40 ∈ [Event.sleep 40, Event.exec Cmd.health,
      Event.exec (Cmd.poolGet "data" "pg_num")] :=
  ⟨(settle_after_every_write simRuntime ⟨"data", 10, 1024, false⟩ "pg_num" ⟨1, 0⟩
      ⟨Cluster.steady mockHealthOKJSON 1020, []⟩).1.mpr
        ⟨_, _, 1020, _, _, _, rfl, rfl, rfl, by decide, rfl⟩,
    rfl,
    ((settle_after_every_write simRuntime ⟨"data", 10, 1024, false⟩ "pg_num" ⟨1, 0⟩
      ⟨Cluster.steady mockHealthOKJSON 1000, []⟩).2.2
        (List.replicate 4 Select.ticker ++ [Select.done]) rfl).2
      [Event.exec Cmd.health, Event.exec (Cmd.poolGet "data" "pg_num")]
      (Event.exec (Cmd.poolSet "data" "pg_num" 1010))
      [Event.sleep 40, Event.exec Cmd.health, Event.exec (Cmd.poolGet "data" "pg_num")]
      (Event.exec (Cmd.poolSet "data" "pg_num" 1020))
      [Event.sleep 40, Event.exec Cmd.health, Event.exec (Cmd.poolGet "data" "pg_num"),
        Event.exec (Cmd.poolSet "data" "pg_num" 1024), Event.sleep 40, Event.exec Cmd.health,
        Event.exec (Cmd.poolGet "data" "pg_num"), Event.send, Event.recv]
      rfl rfl rfl⟩

/-! ## The two phases of `main` -/

theorem PhaseTrace_nil (pool pgType : String) : PhaseTrace pool pgType [] := by
  simp [PhaseTrace]

theorem PhaseTrace_append (pool pgType : String) (a b : List Event)
    (ha : PhaseTrace pool pgType a) (hb : PhaseTrace pool pgType b) :
    PhaseTrace pool pgType (a ++ b) := by
  obtain ⟨ha1, ha2, ha3⟩ := ha
  obtain ⟨hb1, hb2, hb3⟩ := hb
  refine ⟨?_, ?_, ?_⟩
  · intro c hc
    rcases List.mem_append.mp hc with h | h
    · exact ha1 c h
    · exact hb1 c h
  · simp [ha2, hb2]
  · simp [ha3, hb3]

/-- A completion signal is sent only by a healthy tick that read a value at or
above the target, and a tick leaves the `done` channel as it was unless it
sends. -/
theorem send_only_at_target {β σ : Type} (rt : Runtime β σ) (pool pgType : String)
    (target delta : Int) (done : Chan) (s : State σ) :
    (Event.send ∈ tick rt pool pgType target delta done s →
      ∃ j s1 cur s2, runCmd rt Cmd.health s = (.ok j, s1) ∧ healthy rt j = some true ∧
        get rt pool pgType s1 = (.returned (cur, none), s2) ∧ cur ≥ target) ∧
    ((raise rt pool pgType target delta done s).2.1 = done ∨
      Event.send ∈ tick rt pool pgType target delta done s) := by
  rcases raise_cases rt pool pgType target delta done s with
    ⟨err, s1, hh, hret, hdone, ht⟩ | ⟨j, s1, hh, hg, hnp, hret, hdone, ht⟩ |
    ⟨j, s1, s2, hh, hg, hr, hret, hdone, ht⟩ | ⟨j, s1, v, err, s2, hh, hg, hr, hret, hdone, ht⟩ |
    ⟨j, s1, cur, s2, hh, hg, hr, hge, hret, ht⟩ |
    ⟨j, s1, cur, s2, err, s3, hh, hg, hr, hlt, hw, hret, hdone, ht⟩ |
    ⟨j, s1, cur, s2, out, s3, hh, hg, hr, hlt, hw, hret, hdone, ht⟩
  · exact ⟨fun h => by rw [ht] at h; simp at h, Or.inl hdone⟩
  · exact ⟨fun h => by rw [ht] at h; simp at h, Or.inl hdone⟩
  · exact ⟨fun h => by rw [ht] at h; simp at h, Or.inl hdone⟩
  · exact ⟨fun h => by rw [ht] at h; simp at h, Or.inl hdone⟩
  · refine ⟨fun _ => ⟨j, s1, cur, s2, hh, hg, hr, hge⟩, ?_⟩
    by_cases hroom : done.len < done.cap
    · right
      rw [(raise_signals_done rt pool pgType target delta done s s1 s2 j cur
        hh hg hr hge hroom).2]
      simp
    · left
      rw [(raise_blocks_when_done_full rt pool pgType target delta done s s1 s2 j cur
        hh hg hr hge hroom).1]
  · exact ⟨fun h => by rw [ht] at h; simp at h, Or.inl hdone⟩
  · exact ⟨fun h => by rw [ht] at h; simp at h, Or.inl hdone⟩

/-- The events of a tick belong to its phase. -/
theorem tick_phase {β σ : Type} (rt : Runtime β σ) (pool pgType : String)
    (target delta : Int) (done : Chan) (s : State σ) :
    PhaseTrace pool pgType (tick rt pool pgType target delta done s) := by
  rcases raise_cases rt pool pgType target delta done s with
    ⟨err, s1, hh, hret, hdone, ht⟩ | ⟨j, s1, hh, hg, hnp, hret, hdone, ht⟩ |
    ⟨j, s1, s2, hh, hg, hr, hret, hdone, ht⟩ | ⟨j, s1, v, err, s2, hh, hg, hr, hret, hdone, ht⟩ |
    ⟨j, s1, cur, s2, hh, hg, hr, hge, hret, ht⟩ |
    ⟨j, s1, cur, s2, err, s3, hh, hg, hr, hlt, hw, hret, hdone, ht⟩ |
    ⟨j, s1, cur, s2, out, s3, hh, hg, hr, hlt, hw, hret, hdone, ht⟩
  · rw [ht]; simp [PhaseTrace]
  · rw [ht]; simp [PhaseTrace]
  · rw [ht]; simp [PhaseTrace]
  · rw [ht]; simp [PhaseTrace]
  · rcases ht with ht | ht <;> rw [ht] <;> simp [PhaseTrace]
  · rw [ht]; simp [PhaseTrace]
  · rw [ht]; simp [PhaseTrace]

/-- The events of a phase: when the loop returns they end with the receive
from `done`, which a completion signal preceded; otherwise there is no
receive. -/
theorem runLoop_phase {β σ : Type} (rt : Runtime β σ) (fl : Flags) (pgType : String)
    (schedule : List Select) :
    ∀ (done : Chan) (s : State σ), ∃ evs,
      (runLoop rt fl pgType schedule done s).2.trace = s.trace ++ evs ∧
      (((runLoop rt fl pgType schedule done s).1 = RunResult.returned ∧
          ∃ a, evs = a ++ [Event.recv] ∧ PhaseTrace fl.pool pgType a ∧
            (0 < done.len ∨ Event.send ∈ a)) ∨
        ((runLoop rt fl pgType schedule done s).1 ≠ RunResult.returned ∧
          PhaseTrace fl.pool pgType evs)) := by
  induction schedule with
  | nil =>
    intro done s
    exact ⟨[], by simp [runLoop], Or.inr ⟨by simp [runLoop], PhaseTrace_nil _ _⟩⟩
  | cons x rest ih =>
    intro done s
    cases x with
    | ticker =>
      have htr := raise_trace rt fl.pool pgType fl.target fl.delta done s
      have hph := tick_phase rt fl.pool pgType fl.target fl.delta done s
      have hsend := (send_only_at_target rt fl.pool pgType fl.target fl.delta done s).2
      unfold runLoop
      generalize tick rt fl.pool pgType fl.target fl.delta done s = evs0 at htr hph hsend
      generalize raise rt fl.pool pgType fl.target fl.delta done s = r at htr hsend
      obtain ⟨ret, done1, s1⟩ := r
      simp only at htr hsend
      cases ret with
      | returned v =>
        cases v with
        | none =>
          obtain ⟨evs1, h1, hcase⟩ := ih done1 s1
          refine ⟨evs0 ++ evs1, by simp only [h1, htr, List.append_assoc], ?_⟩
          rcases hcase with ⟨hres, a, ha, hpa, hsig⟩ | ⟨hres, hpe⟩
          · refine Or.inl ⟨hres, evs0 ++ a, by rw [ha, List.append_assoc],
              PhaseTrace_append _ _ _ _ hph hpa, ?_⟩
            rcases hsig with hlen | hmem
            · rcases hsend with hd | hs
              · rw [hd] at hlen
                exact Or.inl hlen
              · exact Or.inr (by simp [hs])
            · exact Or.inr (by simp [hmem])
          · exact Or.inr ⟨hres, PhaseTrace_append _ _ _ _ hph hpe⟩
        | some err => exact ⟨evs0, htr, Or.inr ⟨by simp, hph⟩⟩
      | fatal => exact ⟨evs0, htr, Or.inr ⟨by simp, hph⟩⟩
      | blocked => exact ⟨evs0, htr, Or.inr ⟨by simp, hph⟩⟩
      | panic => exact ⟨evs0, htr, Or.inr ⟨by simp, hph⟩⟩
    | done =>
      unfold runLoop
      split_ifs with hlen
      · exact ⟨[Event.recv], rfl, Or.inl ⟨rfl, [], rfl, PhaseTrace_nil _ _, Or.inl hlen⟩⟩
      · exact ih done s
    | signal =>
      exact ⟨[], by simp [runLoop], Or.inr ⟨by simp [runLoop], PhaseTrace_nil _ _⟩⟩

/-- A phase trace holds no command for another parameter. -/
theorem PhaseTrace_other (pool pgType other : String) (evs : List Event)
    (h : PhaseTrace pool pgType evs) (hne : other ≠ pgType) :
    ∀ p n, Event.exec (Cmd.poolGet p other) ∉ evs ∧ Event.exec (Cmd.poolSet p other n) ∉ evs := by
  intro p n
  constructor
  · intro hmem
    rcases h.1 _ hmem with h1 | h1 | ⟨m, h1⟩
    · cases h1
    · simp only [Cmd.poolGet.injEq] at h1
      exact hne h1.2
    · cases h1
  · intro hmem
    rcases h.1 _ hmem with h1 | h1 | ⟨m, h1⟩
    · cases h1
    · cases h1
    · simp only [Cmd.poolSet.injEq] at h1
      exact hne h1.2.1

/-- A tick that returns no error hands the loop on to the next iteration. -/
theorem runLoop_ticker {β σ : Type} (rt : Runtime β σ) (fl : Flags) (pgType : String)
    (rest : List Select) (done done1 : Chan) (s s1 : State σ)
    (h : raise rt fl.pool pgType fl.target fl.delta done s = (.returned none, done1, s1)) :
    runLoop rt fl pgType (Select.ticker :: rest) done s = runLoop rt fl pgType rest done1 s1 := by
  simp only [runLoop, h]

/-- A loop that starts with an empty `done` channel and returns has made a
tick that found the cluster healthy and read a value at or above the target:
the schedule is `pre`, that tick, `rest`; after `pre` the loop is still waiting,
in a state `st` with no completion signal sent so far; at `st` the health
command succeeds with a healthy report and `get` returns `cur ≥ target`; and the
trace is that of `st`, the three events of the tick, further events, and the
receive from `done`. -/
theorem runLoop_done_at_target {β σ : Type} (rt : Runtime β σ) (fl : Flags) (pgType : String)
    (schedule : List Select) :
    ∀ (done : Chan) (s : State σ), ¬ 0 < done.len →
      (runLoop rt fl pgType schedule done s).1 = RunResult.returned →
      ∃ (pre rest : List Select) (st : State σ) (j : β) (s1 : State σ) (cur : Int)
          (s2 : State σ) (a b : List Event),
        schedule = pre ++ Select.ticker :: rest ∧
        runLoop rt fl pgType pre done s = (RunResult.waiting, st) ∧
        st.trace = s.trace ++ a ∧ Event.send ∉ a ∧
        runCmd rt Cmd.health st = (.ok j, s1) ∧ healthy rt j = some true ∧
        get rt fl.pool pgType s1 = (.returned (cur, none), s2) ∧ cur ≥ fl.target ∧
        (runLoop rt fl pgType schedule done s).2.trace
          = st.trace ++ [Event.exec Cmd.health, Event.exec (Cmd.poolGet fl.pool pgType),
              Event.send] ++ b ++ [Event.recv] := by
  induction schedule with
  | nil => intro done s _ h; simp [runLoop] at h
  | cons x rest ih =>
    intro done s hlen hret
    cases x with
    | signal => simp [runLoop] at hret
    | done =>
      have hstep : ∀ l, runLoop rt fl pgType (Select.done :: l) done s
          = runLoop rt fl pgType l done s := by
        intro l
        simp only [runLoop, if_neg hlen]
      rw [hstep] at hret
      obtain ⟨pre, rest1, st, j, s1, cur, s2, a, b, hsched, hpre, hst, hns, hh, hg, hr, hge,
        htr⟩ := ih done s hlen hret
      exact ⟨Select.done :: pre, rest1, st, j, s1, cur, s2, a, b, by rw [hsched]; rfl,
        by rw [hstep]; exact hpre, hst, hns, hh, hg, hr, hge, by rw [hstep]; exact htr⟩
    | ticker =>
      rcases hraise : raise rt fl.pool pgType fl.target fl.delta done s with ⟨ret, done1, s3⟩
      have hres : ret = .returned none := by
        cases ret with
        | returned v =>
          cases v with
          | none => rfl
          | some err => simp [runLoop, hraise] at hret
        | fatal => simp [runLoop, hraise] at hret
        | blocked => simp [runLoop, hraise] at hret
        | panic => simp [runLoop, hraise] at hret
      subst hres
      have hstep : ∀ l, runLoop rt fl pgType (Select.ticker :: l) done s
          = runLoop rt fl pgType l done1 s3 :=
        fun l => runLoop_ticker rt fl pgType l done done1 s s3 hraise
      have htrace := raise_trace rt fl.pool pgType fl.target fl.delta done s
      rw [hraise] at htrace
      simp only at htrace
      rw [hstep] at hret
      by_cases hsent : Event.send ∈ tick rt fl.pool pgType fl.target fl.delta done s
      · obtain ⟨j, s1, cur, s2, hh, hg, hr, hge⟩ :=
          (send_only_at_target rt fl.pool pgType fl.target fl.delta done s).1 hsent
        have hroom : done.len < done.cap := by
          by_contra hfull
          have hb := (raise_blocks_when_done_full rt fl.pool pgType fl.target fl.delta done
            s s1 s2 j cur hh hg hr hge hfull).1
          rw [hraise] at hb
          cases hb
        have htick := (raise_signals_done rt fl.pool pgType fl.target fl.delta done
          s s1 s2 j cur hh hg hr hge hroom).2
        obtain ⟨evs, he, hcase⟩ := runLoop_phase rt fl pgType rest done1 s3
        rcases hcase with ⟨_, a, ha, _, _⟩ | ⟨hne, _⟩
        · refine ⟨[], rest, s, j, s1, cur, s2, [], a, rfl, by simp [runLoop], by simp,
            by simp, hh, hg, hr, hge, ?_⟩
          rw [hstep, he, htrace, htick, ha]
          simp
        · exact absurd hret hne
      · have hdone : done1 = done := by
          rcases (send_only_at_target rt fl.pool pgType fl.target fl.delta done s).2 with h | h
          · rw [hraise] at h
            exact h
          · exact absurd h hsent
        subst hdone
        obtain ⟨pre, rest1, st, j, s1, cur, s2, a, b, hsched, hpre, hst, hns, hh, hg, hr, hge,
          htr⟩ := ih done1 s3 hlen hret
        refine ⟨Select.ticker :: pre, rest1, st, j, s1, cur, s2,
          tick rt fl.pool pgType fl.target fl.delta done1 s ++ a, b, by rw [hsched]; rfl,
          by rw [hstep]; exact hpre, by rw [hst, htrace, List.append_assoc], ?_,
          hh, hg, hr, hge, by rw [hstep]; exact htr⟩
        simp [hsent, hns]

/-- C15. Two-phase ordering: on the trace of every execution of `main`, either
there is no `pgp_num` command and no pause of 30 seconds at all, or the trace
is `p1`, the receive from `done`, the pause of 30 seconds, `p2`, where `p1`
holds the completion signal of the `pg_num` phase and no `pgp_num` command, and
`p2` holds no `pg_num` command and no further pause of 30 seconds.  The
completion signal is that of a healthy tick that read `pg_num ≥ target`: the
schedule of the first phase is `pre`, a tick, `rest`; after `pre` the phase is
still waiting, in a state `st` whose trace holds no completion signal; at `st`
the health command succeeds with a healthy report and `get` returns a value
`cur ≥ target` for `pg_num`; and `p1` is the trace of `st`, the health command,
the read of `pg_num` and the signal of that tick, and further events. -/
theorem main_two_phases {β σ : Type} (rt : Runtime β σ) (fl : Flags)
    (first second : List Select) (w : σ) :
    ((∀ p n, Event.exec (Cmd.poolGet p "pgp_num") ∉ (main rt fl first second ⟨w, []⟩).2.trace ∧
        Event.exec (Cmd.poolSet p "pgp_num" n) ∉ (main rt fl first second ⟨w, []⟩).2.trace) ∧
      Event.sleep 30 ∉ (main rt fl first second ⟨w, []⟩).2.trace) ∨
    ∃ p1 p2, (main rt fl first second ⟨w, []⟩).2.trace
        = p1 ++ Event.recv :: Event.sleep 30 :: p2 ∧
      Event.send ∈ p1 ∧ Event.recv ∉ p1 ∧ Event.sleep 30 ∉ p1 ∧
      (∀ p n, Event.exec (Cmd.poolGet p "pgp_num") ∉ p1 ∧
        Event.exec (Cmd.poolSet p "pgp_num" n) ∉ p1) ∧
      (∀ p n, Event.exec (Cmd.poolGet p "pg_num") ∉ p2 ∧
        Event.exec (Cmd.poolSet p "pg_num" n) ∉ p2) ∧
      Event.sleep 30 ∉ p2 ∧
      ∃ (pre rest : List Select) (st : State σ) (j : β) (s1 : State σ) (cur : Int)
          (s2 : State σ) (b : List Event),
        first = pre ++ Select.ticker :: rest ∧
        run rt fl "pg_num" pre ⟨w, []⟩ = (RunResult.waiting, st) ∧
        Event.send ∉ st.trace ∧
        runCmd rt Cmd.health st = (.ok j, s1) ∧ healthy rt j = some true ∧
        get rt fl.pool "pg_num" s1 = (.returned (cur, none), s2) ∧ cur ≥ fl.target ∧
        p1 = st.trace ++ [Event.exec Cmd.health, Event.exec (Cmd.poolGet fl.pool "pg_num"),
          Event.send] ++ b := by
  unfold main
  split_ifs with hpool hpow
  · exact Or.inl ⟨by simp, by simp⟩
  · exact Or.inl ⟨by simp, by simp⟩
  · obtain ⟨evs, htr, hcase⟩ := runLoop_phase rt fl "pg_num" first ⟨1, 0⟩ ⟨w, []⟩
    have hat := runLoop_done_at_target rt fl "pg_num" first ⟨1, 0⟩ ⟨w, []⟩ (by decide)
    unfold run
    generalize runLoop rt fl "pg_num" first ⟨1, 0⟩ ⟨w, []⟩ = r at htr hcase hat
    obtain ⟨res, s1⟩ := r
    simp only [List.nil_append] at htr hcase hat
    rcases hcase with ⟨hres, a, ha, hpa, hsig⟩ | ⟨hres, hpe⟩
    · subst hres
      simp only
      obtain ⟨pre, rest, st, j, t1, cur, t2, a0, b, hsched, hpre, hst, hns, hh, hg, hr, hge,
        hshape⟩ := hat rfl
      obtain ⟨evs2, htr2, hcase2⟩ := runLoop_phase rt fl "pgp_num" second ⟨1, 0⟩
        ⟨s1.world, s1.trace ++ [Event.sleep 30]⟩
      have hsend : Event.send ∈ a := by
        rcases hsig with h | h
        · simp at h
        · exact h
      have hp2 : PhaseTrace fl.pool "pgp_num" evs2 ∨
          ∃ a2, evs2 = a2 ++ [Event.recv] ∧ PhaseTrace fl.pool "pgp_num" a2 := by
        rcases hcase2 with ⟨_, a2, ha2, hpa2, _⟩ | ⟨_, hpe2⟩
        · exact Or.inr ⟨a2, ha2, hpa2⟩
        · exact Or.inl hpe2
      have hp1 : a = st.trace ++ [Event.exec Cmd.health,
          Event.exec (Cmd.poolGet fl.pool "pg_num"), Event.send] ++ b := by
        rw [htr, ha] at hshape
        exact List.append_cancel_right hshape
      refine Or.inr ⟨a, evs2, ?_, hsend, hpa.2.1, hpa.2.2,
        PhaseTrace_other _ _ _ _ hpa (by decide), ?_, ?_,
        pre, rest, st, j, t1, cur, t2, b, hsched, hpre, by rw [hst]; exact hns,
        hh, hg, hr, hge, hp1⟩
      · rw [htr2]
        simp [htr, ha]
      · rcases hp2 with h | ⟨a2, ha2, h⟩
        · exact PhaseTrace_other _ _ _ _ h (by decide)
        · intro p n
          have := PhaseTrace_other _ _ "pg_num" _ h (by decide) p n
          rw [ha2]
          simpa using this
      · rcases hp2 with h | ⟨a2, ha2, h⟩
        · exact h.2.2
        · rw [ha2]
          simpa using h.2.2
    · have hfinal : (match ((res, s1) : RunResult × State σ) with
          | (RunResult.returned, s1) =>
            runLoop rt fl "pgp_num" second ⟨1, 0⟩ ⟨s1.world, s1.trace ++ [Event.sleep 30]⟩
          | (r, s1) => (r, s1)) = (res, s1) := by
        cases res with
        | returned => exact absurd rfl hres
        | exit code => rfl
        | blocked => rfl
        | panic => rfl
        | waiting => rfl
      rw [hfinal]
      simp only [htr]
      exact Or.inl ⟨PhaseTrace_other _ _ _ _ hpe (by decide), hpe.2.2⟩

/-- Witness for C15: one write of `pg_num` to the target, its completion, the
pause of 30 seconds and the first write of `pgp_num`. -/
theorem main_two_phases_witness :
    (main simRuntime ⟨"data", 10, 1024, false⟩ [Select.ticker, Select.ticker, Select.done]
        [Select.ticker, Select.done] ⟨Cluster.steady mockHealthOKJSON 1020, []⟩).2.trace
      = [Event.exec Cmd.health, Event.exec (Cmd.poolGet "data" "pg_num"),
          Event.exec (Cmd.poolSet "data" "pg_num" 1024), Event.sleep 40,
          Event.exec Cmd.health, Event.exec (Cmd.poolGet "data" "pg_num"), Event.send]
        ++ Event.recv :: Event.sleep 30 ::
          [Event.exec Cmd.health, Event.exec (Cmd.poolGet "data" "pgp_num"),
            Event.exec (Cmd.poolSet "data" "pgp_num" 1024), Event.sleep 40] ∧
    ∃ p1 p2, (main simRuntime ⟨"data", 10, 1024, false⟩
        [Select.ticker, Select.ticker, Select.done] [Select.ticker, Select.done]
        ⟨Cluster.steady mockHealthOKJSON 1020, []⟩).2.trace
          = p1 ++ Event.recv :: Event.sleep 30 :: p2 ∧
      Event.send ∈ p1 ∧ Event.recv ∉ p1 ∧ Event.sleep 30 ∉ p1 ∧
      (∀ p n, Event.exec (Cmd.poolGet p "pgp_num") ∉ p1 ∧
        Event.exec (Cmd.poolSet p "pgp_num" n) ∉ p1) ∧
      (∀ p n, Event.exec (Cmd.poolGet p "pg_num") ∉ p2 ∧
        Event.exec (Cmd.poolSet p "pg_num" n) ∉ p2) ∧
      Event.sleep 30 ∉ p2 ∧
      ∃ (pre rest : List Select) (st : State Cluster) (j : Json) (s1 : State Cluster)
          (cur : Int) (s2 : State Cluster) (b : List Event),
        [Select.ticker, Select.ticker, Select.done] = pre ++ Select.ticker :: rest ∧
        run simRuntime ⟨"data", 10, 1024, false⟩ "pg_num" pre
          ⟨Cluster.steady mockHealthOKJSON 1020, []⟩ = (RunResult.waiting, st) ∧
        Event.send ∉ st.trace ∧
        runCmd simRuntime Cmd.health st = (.ok j, s1) ∧ healthy simRuntime j = some true ∧
        get simRuntime "data" "pg_num" s1 = (.returned (cur, none), s2) ∧ cur ≥ 1024 ∧
        p1 = st.trace ++ [Event.exec Cmd.health, Event.exec (Cmd.poolGet "data" "pg_num"),
          Event.send] ++ b :=
  ⟨rfl, (main_two_phases simRuntime ⟨"data", 10, 1024, false⟩
    [Select.ticker, Select.ticker, Select.done] [Select.ticker, Select.done]
    (Cluster.steady mockHealthOKJSON 1020)).resolve_left
      (fun h => h.2 (by decide))⟩

/-! ## The checks of `main` and the parameter read -/

/-- What `main` does with flags it rejects: it exits with code 2 and nothing
was done.  Apart from the smallest `int64`, the target is rejected exactly when
it is not a positive power of two. -/
theorem main_rejects_flags {β σ : Type} (rt : Runtime β σ) (fl : Flags)
    (first second : List Select) (s : State σ) :
    (fl.pool = "" ∨ powerOfTwo fl.target = false →
      main rt fl first second s = (RunResult.exit 2, s)) ∧
    (minInt64 < fl.target → fl.target ≤ maxInt64 →
      (powerOfTwo fl.target = false ↔ ¬ (0 < fl.target ∧ ∃ k : Nat, fl.target = 2 ^ k))) := by
  constructor
  · rintro (h | h)
    · simp [main, h]
    · simp [main, h]
  · intro hmin hmax
    by_cases hpos : 0 < fl.target
    · obtain ⟨N, hN⟩ := Int.eq_ofNat_of_zero_le (le_of_lt hpos)
      have h0 : 0 < N := by omega
      have hlt : N < 9223372036854775808 := by unfold maxInt64 at hmax; omega
      have hiff := powerOfTwo_natCast_iff N h0 hlt
      rw [hN]
      constructor
      · rintro hf ⟨_, k, hk⟩
        have : powerOfTwo (N : Int) = true := hiff.mpr ⟨k, by exact_mod_cast hk⟩
        rw [hf] at this
        cases this
      · intro hnot
        cases hp : powerOfTwo (N : Int) with
        | false => rfl
        | true =>
          obtain ⟨k, hk⟩ := hiff.mp hp
          exact absurd ⟨by omega, k, by rw [hk]; push_cast; rfl⟩ hnot
    · have hf := powerOfTwo_of_nonpos fl.target hmin (by omega)
      simp [hf, hpos]

/-- C16, evaluated on the code: with the pool name `data` and the target
`-2^63`, which is not greater than 0, `powerOfTwo` is true and `main` does not
exit with code 2: it starts the `pg_num` phase, runs the health and the read
command and reports the phase as done. -/
theorem main_starts_on_minInt64 :
    minInt64 ≤ 0 ∧ powerOfTwo minInt64 = true ∧
    main simRuntime ⟨"data", 10, minInt64, false⟩ [Select.ticker, Select.done] []
        ⟨Cluster.steady mockHealthOKJSON 1000, []⟩
      = (RunResult.waiting,
        ⟨⟨fun _ => mockHealthOKJSON, 1, fun _ _ => 1000⟩,
          [Event.exec Cmd.health, Event.exec (Cmd.poolGet "data" "pg_num"), Event.send,
            Event.recv, Event.sleep 30]⟩) ∧
    (main simRuntime ⟨"data", 10, 0, false⟩ [Select.ticker, Select.done] []
        ⟨Cluster.steady mockHealthOKJSON 1000, []⟩).1 = RunResult.exit 2 ∧
    (main simRuntime ⟨"", 10, 1024, false⟩ [Select.ticker, Select.done] []
        ⟨Cluster.steady mockHealthOKJSON 1000, []⟩).1 = RunResult.exit 2 :=
  ⟨by decide, by decide, rfl, rfl, rfl⟩

/-- The map decoded from an object gives, for a key, the value of the last
entry with that key. -/
theorem Json.intoMap_last (before after : List (String × Json)) (key : String) (v : Json)
    (h : ∀ kv ∈ after, kv.1 ≠ key) :
    ∃ m, Json.intoMap (Json.obj (before ++ (key, v) :: after)) = .ok m ∧
      m key = some (Json.toValue v) := by
  refine ⟨_, rfl, ?_⟩
  have hnone : after.reverse.find? (fun kv => kv.1 == key) = none := by
    rw [List.find?_eq_none]
    intro kv hkv
    simpa using h kv (List.mem_reverse.mp hkv)
  simp [List.find?_append, hnone]

/-- C17, as stated, fails: `get` does not return every `int64` stored under the
key.  The value goes through a `float64`, and for the stored integer
`2^53 + 1` the read returns `2^53`. -/
theorem get_rounds_large_integers :
    ¬ ∀ n : Int, minInt64 ≤ n → n ≤ maxInt64 →
        (get (staticRuntime (Json.obj [("pool", Json.str "data"), ("pg_num", Json.int n)]))
          "data" "pg_num" ⟨(), []⟩).1 = Ret.returned (n, none) := by
  intro h
  have hbad := h 9007199254740993 (by decide) (by decide)
  have hgot : (get (staticRuntime (Json.obj [("pool", Json.str "data"),
      ("pg_num", Json.int 9007199254740993)])) "data" "pg_num" ⟨(), []⟩).1
        = Ret.returned (9007199254740992, none) := rfl
  rw [hgot] at hbad
  simp only [Ret.returned.injEq, Prod.mk.injEq, and_true] at hbad
  exact absurd hbad (by decide)

/-- C17, amended. Parameter read: when the command succeeds and its output
decodes to a map that holds under the key `pgType` the `float64` of an integer
`n` of the `int64` range, `get` returns `n` with no error; so it does on every
JSON object whose last entry for `pgType` is an integer literal below `2 ^ 53`
in magnitude, whatever the other entries are.  When the command fails, the
output does not decode to a map, or the key `pgType` is missing, `get` returns
-1 together with an error. -/
theorem get_returns_stored_integer {β σ : Type} (rt : Runtime β σ) (pool pgType : String)
    (s : State σ) :
    (∀ b w m (n : Int), rt.execCommand (Cmd.poolGet pool pgType) s.world = (.ok b, w) →
      rt.unmarshalMap b = .ok m → m pgType = some (Value.float64 (n : ℚ)) →
      minInt64 ≤ n → n ≤ maxInt64 →
      get rt pool pgType s
        = (.returned (n, none), ⟨w, s.trace ++ [Event.exec (Cmd.poolGet pool pgType)]⟩)) ∧
    (∀ (n : Int) (before after : List (String × Json)) (tr : List Event),
      n.natAbs < 9007199254740992 → (∀ kv ∈ after, kv.1 ≠ pgType) →
      get (staticRuntime (Json.obj (before ++ (pgType, Json.int n) :: after))) pool pgType
          ⟨(), tr⟩
        = (.returned (n, none), ⟨(), tr ++ [Event.exec (Cmd.poolGet pool pgType)]⟩)) ∧
    (∀ err w, rt.execCommand (Cmd.poolGet pool pgType) s.world = (.error err, w) →
      get rt pool pgType s
        = (.returned (-1, some err), ⟨w, s.trace ++ [Event.exec (Cmd.poolGet pool pgType)]⟩)) ∧
    (∀ b w err, rt.execCommand (Cmd.poolGet pool pgType) s.world = (.ok b, w) →
      rt.unmarshalMap b = .error err →
      get rt pool pgType s
        = (.returned (-1, some err), ⟨w, s.trace ++ [Event.exec (Cmd.poolGet pool pgType)]⟩)) ∧
    (∀ b w m, rt.execCommand (Cmd.poolGet pool pgType) s.world = (.ok b, w) →
      rt.unmarshalMap b = .ok m → m pgType = none →
      get rt pool pgType s
        = (.returned (-1, some ("Error in getting " ++ pgType ++ " of " ++ pool)),
          ⟨w, s.trace ++ [Event.exec (Cmd.poolGet pool pgType)]⟩)) := by
  refine ⟨?_, ?_, ?_, ?_, ?_⟩
  · intro b w m n hex hm hv h1 h2
    simp only [get, runCmd, hex, hm, hv, int64OfFloat64_intCast rt n h1 h2]
  · intro n before after tr hn hafter
    obtain ⟨m, hm, hv⟩ := Json.intoMap_last before after pgType (Json.int n) hafter
    have hv2 : m pgType = some (Value.float64 (n : ℚ)) := by
      rw [hv, Json.int, float64OfInt_exact n hn]
      rfl
    have h1 : minInt64 ≤ n := by unfold minInt64; omega
    have h2 : n ≤ maxInt64 := by unfold maxInt64; omega
    have hm2 : (staticRuntime (Json.obj (before ++ (pgType, Json.int n) :: after))).unmarshalMap
        (Json.obj (before ++ (pgType, Json.int n) :: after)) = .ok m := hm
    simp only [get, runCmd, staticRuntime] at hm2 ⊢
    simp only [hm2, hv2]
    rw [int64OfFloat64_intCast _ n h1 h2]
  · intro err w hex
    simp only [get, runCmd, hex]
  · intro b w err hex hm
    simp only [get, runCmd, hex, hm]
  · intro b w m hex hm hv
    simp only [get, runCmd, hex, hm, hv]

/-- Witness for C17 amended: the two payloads of `TestGet` give 1024 for
`pg_num` and 256 for `pgp_num`; any other parameter makes the helper process
fail and `get` return -1 with the error. -/
theorem get_returns_stored_integer_witness :
    get mockRuntime "testPool" "pg_num" ⟨(), []⟩
      = (.returned (1024, none), ⟨(), [Event.exec (Cmd.poolGet "testPool" "pg_num")]⟩) ∧
    get mockRuntime "testPool" "pgp_num" ⟨(), []⟩
      = (.returned (256, none), ⟨(), [Event.exec (Cmd.poolGet "testPool" "pgp_num")]⟩) ∧
    get mockRuntime "testPool" "size" ⟨(), []⟩
      = (.returned (-1, some "exit status 22"),
        ⟨(), [Event.exec (Cmd.poolGet "testPool" "size")]⟩) ∧
    get (staticRuntime (Json.obj ([("pool", Json.str "cephfs_data"), ("pool_id", Json.int 22)]
        ++ ("pg_num", Json.int 1024) :: []))) "testPool" "pg_num" ⟨(), []⟩
      = (.returned (1024, none), ⟨(), [] ++ [Event.exec (Cmd.poolGet "testPool" "pg_num")]⟩) :=
  ⟨(get_returns_stored_integer mockRuntime "testPool" "pg_num" ⟨(), []⟩).1
      mockPGNumJSON () _ 1024 rfl rfl rfl (by decide) (by decide),
    (get_returns_stored_integer mockRuntime "testPool" "pgp_num" ⟨(), []⟩).1
      mockPGPNumJSON () _ 256 rfl rfl rfl (by decide) (by decide),
    (get_returns_stored_integer mockRuntime "testPool" "size" ⟨(), []⟩).2.2.1
      "exit status 22" () rfl,
    (get_returns_stored_integer mockRuntime "testPool" "pg_num" ⟨(), []⟩).2.1 1024
      [("pool", Json.str "cephfs_data"), ("pool_id", Json.int 22)] [] [] (by decide)
      (by simp)⟩

/-! ## A phase on the simulated cluster -/

/-- The simulated cluster prints the stored value, and `get` reads it back
when it is at most `2 ^ 53` in magnitude. -/
theorem sim_get (w : Cluster) (tr : List Event) (pool pgType : String)
    (h1 : -9007199254740992 ≤ w.value pool pgType)
    (h2 : w.value pool pgType ≤ 9007199254740992) :
    get simRuntime pool pgType ⟨w, tr⟩ =
      (.returned (w.value pool pgType, none),
        ⟨w, tr ++ [Event.exec (Cmd.poolGet pool pgType)]⟩) := by
  have hmin : minInt64 ≤ w.value pool pgType := by unfold minInt64; omega
  have hmax : w.value pool pgType ≤ maxInt64 := by unfold maxInt64; omega
  simp [get, runCmd, simRuntime, Cluster.exec, Json.intoMap, Json.toValue, Json.int,
    float64OfInt_exact_le _ h1 h2, int64OfFloat64, hmin, hmax]

/-- The simulated health command. -/
theorem sim_health (w : Cluster) (tr : List Event) :
    runCmd simRuntime Cmd.health ⟨w, tr⟩ =
      (.ok (w.report w.asked),
        ⟨{ w with asked := w.asked + 1 }, tr ++ [Event.exec Cmd.health]⟩) := by
  simp [runCmd, simRuntime, Cluster.exec]

theorem sim_raise_rejected (w : Cluster) (tr : List Event) (pool pgType : String)
    (target delta : Int) (done : Chan)
    (hg : healthy simRuntime (w.report w.asked) = some false) :
    raise simRuntime pool pgType target delta done ⟨w, tr⟩ =
      (.returned none, done,
        ⟨{ w with asked := w.asked + 1 }, tr ++ [Event.exec Cmd.health]⟩) := by
  unfold raise
  simp only [sim_health, hg]

theorem sim_raise_fatal (w : Cluster) (tr : List Event) (pool pgType : String)
    (target delta : Int) (done : Chan)
    (hg : healthy simRuntime (w.report w.asked) = none) :
    raise simRuntime pool pgType target delta done ⟨w, tr⟩ =
      (.fatal, done, ⟨{ w with asked := w.asked + 1 }, tr ++ [Event.exec Cmd.health]⟩) := by
  unfold raise
  simp only [sim_health, hg]

theorem sim_raise_done (w : Cluster) (tr : List Event) (pool pgType : String)
    (target delta : Int) (done : Chan)
    (hg : healthy simRuntime (w.report w.asked) = some true)
    (h1 : -9007199254740992 ≤ w.value pool pgType)
    (h2 : w.value pool pgType ≤ 9007199254740992)
    (hge : w.value pool pgType ≥ target) :
    raise simRuntime pool pgType target delta done ⟨w, tr⟩ =
      if done.len < done.cap then
        (.returned none, ⟨done.cap, done.len + 1⟩,
          ⟨{ w with asked := w.asked + 1 },
            tr ++ [Event.exec Cmd.health, Event.exec (Cmd.poolGet pool pgType), Event.send]⟩)
      else
        (.blocked, done,
          ⟨{ w with asked := w.asked + 1 },
            tr ++ [Event.exec Cmd.health, Event.exec (Cmd.poolGet pool pgType)]⟩) := by
  rw [raise_of_healthy_read simRuntime pool pgType target delta done _ _ _ _ _
    (sim_health w tr) hg (sim_get _ _ pool pgType h1 h2)]
  rw [if_pos hge]
  simp

theorem sim_raise_step (w : Cluster) (tr : List Event) (pool pgType : String)
    (target delta : Int) (done : Chan)
    (hg : healthy simRuntime (w.report w.asked) = some true)
    (h1 : -9007199254740992 ≤ w.value pool pgType)
    (h2 : w.value pool pgType ≤ 9007199254740992)
    (hlt : w.value pool pgType < target) :
    raise simRuntime pool pgType target delta done ⟨w, tr⟩ =
      (.returned none, done,
        ⟨w.afterWrite pool pgType
            (if wrapInt64 (w.value pool pgType + delta) > target then target
              else wrapInt64 (w.value pool pgType + delta)),
          tr ++ [Event.exec Cmd.health, Event.exec (Cmd.poolGet pool pgType),
            Event.exec (Cmd.poolSet pool pgType
              (if wrapInt64 (w.value pool pgType + delta) > target then target
                else wrapInt64 (w.value pool pgType + delta))),
            Event.sleep 40]⟩) := by
  rw [raise_of_healthy_read simRuntime pool pgType target delta done _ _ _ _ _
    (sim_health w tr) hg (sim_get _ _ pool pgType h1 h2)]
  rw [if_neg (not_le.mpr hlt)]
  simp [runCmd, simRuntime, Cluster.exec, Cluster.afterWrite]

/-- A value written by a tick is at most the target, for every runtime and
every delta. -/
theorem tick_writes_le {β σ : Type} (rt : Runtime β σ) (pool pgType : String)
    (target delta : Int) (done : Chan) (s : State σ) :
    ∀ n ∈ writes (tick rt pool pgType target delta done s), n ≤ target := by
  intro n hn
  rcases raise_cases rt pool pgType target delta done s with
    ⟨err, s1, hh, hret, hdone, ht⟩ | ⟨j, s1, hh, hg, hnp, hret, hdone, ht⟩ |
    ⟨j, s1, s2, hh, hg, hr, hret, hdone, ht⟩ | ⟨j, s1, v, err, s2, hh, hg, hr, hret, hdone, ht⟩ |
    ⟨j, s1, cur, s2, hh, hg, hr, hge, hret, ht⟩ |
    ⟨j, s1, cur, s2, err, s3, hh, hg, hr, hlt, hw, hret, hdone, ht⟩ |
    ⟨j, s1, cur, s2, out, s3, hh, hg, hr, hlt, hw, hret, hdone, ht⟩
  · rw [ht] at hn; simp [writes] at hn
  · rw [ht] at hn; simp [writes] at hn
  · rw [ht] at hn; simp [writes] at hn
  · rw [ht] at hn; simp [writes] at hn
  · rcases ht with ht | ht <;> rw [ht] at hn <;> simp [writes] at hn
  · rw [ht] at hn
    simp only [writes, List.mem_singleton] at hn
    rw [hn]
    split_ifs <;> omega
  · rw [ht] at hn
    simp only [writes, List.mem_singleton] at hn
    rw [hn]
    split_ifs <;> omega

/-- The loop of `run` writes no value above the target, for every runtime and
every delta. -/
theorem runLoop_writes_le {β σ : Type} (rt : Runtime β σ) (fl : Flags) (pgType : String)
    (schedule : List Select) :
    ∀ (done : Chan) (s : State σ), (∀ n ∈ writes s.trace, n ≤ fl.target) →
      ∀ n ∈ writes (runLoop rt fl pgType schedule done s).2.trace, n ≤ fl.target := by
  induction schedule with
  | nil => intro done s hs; simpa [runLoop] using hs
  | cons x rest ih =>
    intro done s hs
    cases x with
    | ticker =>
      have htr := raise_trace rt fl.pool pgType fl.target fl.delta done s
      have hle := tick_writes_le rt fl.pool pgType fl.target fl.delta done s
      unfold runLoop
      generalize tick rt fl.pool pgType fl.target fl.delta done s = evs at htr hle
      generalize raise rt fl.pool pgType fl.target fl.delta done s = r at htr
      obtain ⟨ret, done1, s1⟩ := r
      simp only at htr
      have hs1 : ∀ n ∈ writes s1.trace, n ≤ fl.target := by
        intro n hn
        rw [htr, writes_append, List.mem_append] at hn
        rcases hn with h | h
        · exact hs n h
        · exact hle n h
      cases ret with
      | returned v =>
        cases v with
        | none => exact ih done1 s1 hs1
        | some err => exact hs1
      | fatal => exact hs1
      | blocked => exact hs1
      | panic => exact hs1
    | done =>
      unfold runLoop
      split_ifs
      · intro n hn
        simp only [writes_append, writes, List.append_nil] at hn
        exact hs n hn
      · exact ih done s hs
    | signal => simpa [runLoop] using hs

theorem sim_raise_preserves (pool pgType : String) (target delta : Int) (done : Chan)
    (s : State Cluster) (hd : 0 < delta) (hfit : target - 1 + delta ≤ maxInt64)
    (htarget : target ≤ 9007199254740992) (hinv : PhaseInv pool pgType target s) :
    PhaseInv pool pgType target (raise simRuntime pool pgType target delta done s).2.2 := by
  obtain ⟨w, tr⟩ := s
  obtain ⟨h1, h2, hpw, hle⟩ := hinv
  simp only at h1 h2 hpw hle
  have hkeep : ∀ extra : List Event, writes extra = [] →
      PhaseInv pool pgType target ⟨{ w with asked := w.asked + 1 }, tr ++ extra⟩ := by
    intro extra hextra
    refine ⟨h1, h2, ?_, ?_⟩
    · simpa [writes_append, hextra] using hpw
    · simpa [writes_append, hextra] using hle
  cases hg : healthy simRuntime (w.report w.asked) with
  | none =>
    rw [sim_raise_fatal w tr pool pgType target delta done hg]
    exact hkeep _ rfl
  | some b =>
    cases b with
    | false =>
      rw [sim_raise_rejected w tr pool pgType target delta done hg]
      exact hkeep _ rfl
    | true =>
      by_cases hge : w.value pool pgType ≥ target
      · rw [sim_raise_done w tr pool pgType target delta done hg h1 h2 hge]
        split_ifs
        · exact hkeep _ rfl
        · exact hkeep _ rfl
      · have hlt : w.value pool pgType < target := not_le.mp hge
        rw [sim_raise_step w tr pool pgType target delta done hg h1 h2 hlt]
        have hwrap : wrapInt64 (w.value pool pgType + delta) = w.value pool pgType + delta :=
          wrapInt64_of_range _ (by unfold minInt64; omega) (by omega)
        rw [hwrap]
        have hn : w.value pool pgType <
              (if w.value pool pgType + delta > target then target
                else w.value pool pgType + delta) ∧
            (if w.value pool pgType + delta > target then target
                else w.value pool pgType + delta) ≤ target := by
          split_ifs <;> constructor <;> omega
        generalize (if w.value pool pgType + delta > target then target
                else w.value pool pgType + delta) = n at hn
        refine ⟨?_, ?_, ?_, ?_⟩
        · simp [Cluster.afterWrite]; omega
        · simp [Cluster.afterWrite]; omega
        · simp only [writes_append, writes, List.append_nil]
          rw [List.pairwise_append]
          refine ⟨hpw, by simp, ?_⟩
          intro a ha b hb
          simp only [List.mem_singleton] at hb
          have := (hle a ha).1
          omega
        · intro m hm
          simp only [writes_append, writes, List.append_nil, List.mem_append,
            List.mem_singleton] at hm
          simp only [Cluster.afterWrite, and_self, if_true]
          rcases hm with hm | hm
          · have := hle m hm
            omega
          · omega

theorem sim_runLoop_preserves (fl : Flags) (pgType : String) (hd : 0 < fl.delta)
    (hfit : fl.target - 1 + fl.delta ≤ maxInt64) (htarget : fl.target ≤ 9007199254740992)
    (schedule : List Select) :
    ∀ (done : Chan) (s : State Cluster), PhaseInv fl.pool pgType fl.target s →
      PhaseInv fl.pool pgType fl.target (runLoop simRuntime fl pgType schedule done s).2 := by
  induction schedule with
  | nil => intro done s hinv; simpa [runLoop] using hinv
  | cons x rest ih =>
    intro done s hinv
    cases x with
    | ticker =>
      have hnext := sim_raise_preserves fl.pool pgType fl.target fl.delta done s hd hfit
        htarget hinv
      unfold runLoop
      generalize raise simRuntime fl.pool pgType fl.target fl.delta done s = r at hnext
      obtain ⟨ret, done1, s1⟩ := r
      cases ret with
      | returned v =>
        cases v with
        | none => exact ih done1 s1 hnext
        | some err => exact hnext
      | fatal => exact hnext
      | blocked => exact hnext
      | panic => exact hnext
    | done =>
      unfold runLoop
      split_ifs
      · obtain ⟨h1, h2, hpw, hle⟩ := hinv
        refine ⟨h1, h2, ?_, ?_⟩
        · simpa [writes_append, writes] using hpw
        · simpa [writes_append, writes] using hle
      · exact ih done s hinv
    | signal => simpa [runLoop] using hinv

/-- C8, as stated, fails: a positive delta alone does not make the written
values strictly increasing.  The value read goes through a `float64`: with
delta 1, target `2^62` and start value `2^53` every tick reads `2^53` and
writes `2^53 + 1` again.  And the addition is made in `int64`: with delta
`2^63 - 2^11`, target `2^20` and start value `2^13` it overflows and the writes
are `-2^63 + 3 * 2^11`, `4096`, `-2^63 + 2^11`. -/
theorem run_writes_not_increasing_on_overflow :
    (¬ ∀ (w : Cluster) (fl : Flags) (pgType : String) (schedule : List Select),
        0 < fl.delta → fl.delta ≤ maxInt64 →
        minInt64 ≤ w.value fl.pool pgType → w.value fl.pool pgType ≤ maxInt64 →
        List.Pairwise (fun a b => a < b)
          (writes (run simRuntime fl pgType schedule ⟨w, []⟩).2.trace)) ∧
    writes (run simRuntime ⟨"data", 1, 4611686018427387904, false⟩ "pg_num"
        [Select.ticker, Select.ticker, Select.ticker]
        ⟨Cluster.steady mockHealthOKJSON 9007199254740992, []⟩).2.trace
      = [9007199254740993, 9007199254740993, 9007199254740993] ∧
    writes (run simRuntime ⟨"data", 9223372036854773760, 1048576, false⟩ "pg_num"
        [Select.ticker, Select.ticker, Select.ticker]
        ⟨Cluster.steady mockHealthOKJSON 8192, []⟩).2.trace
      = [-9223372036854769664, 4096, -9223372036854773760] := by
  refine ⟨?_, by decide, by decide⟩
  intro h
  have hbad := h (Cluster.steady mockHealthOKJSON 9007199254740992)
    ⟨"data", 1, 4611686018427387904, false⟩
    "pg_num" [Select.ticker, Select.ticker, Select.ticker]
    (by decide) (by decide) (by decide) (by decide)
  exact absurd hbad (by decide)

/-- C8, amended. Monotonicity of a phase run: for every runtime, every delta
and every schedule of ticks, every value written by the phase is at most the
target.  On an external system that keeps the last written value and prints it
on a read, started at a value of magnitude at most `2^53`, with a target of at
most `2^53` (so that every value read is exact in `float64`) and a positive
delta with `target - 1 + delta` within the `int64` range (so that no addition
overflows), for every schedule of ticks and every script of health reports the
values written by the phase are strictly increasing, and a write of the target
is the last write and the only write of that value. -/
theorem run_writes_strictly_increase (fl : Flags) (pgType : String)
    (schedule : List Select) :
    (∀ (β σ : Type) (rt : Runtime β σ) (w0 : σ),
      ∀ n ∈ writes (run rt fl pgType schedule ⟨w0, []⟩).2.trace, n ≤ fl.target) ∧
    (∀ w : Cluster, 0 < fl.delta → fl.target - 1 + fl.delta ≤ maxInt64 →
      fl.target ≤ 9007199254740992 → -9007199254740992 ≤ w.value fl.pool pgType →
      w.value fl.pool pgType ≤ 9007199254740992 →
      List.Pairwise (fun a b => a < b)
          (writes (run simRuntime fl pgType schedule ⟨w, []⟩).2.trace) ∧
        (∀ pre post, writes (run simRuntime fl pgType schedule ⟨w, []⟩).2.trace
            = pre ++ fl.target :: post → post = [] ∧ fl.target ∉ pre)) := by
  constructor
  · intro β σ rt w0
    exact runLoop_writes_le rt fl pgType schedule ⟨1, 0⟩ ⟨w0, []⟩ (by simp [writes])
  · intro w hd hfit htarget h1 h2
    have hinv := sim_runLoop_preserves fl pgType hd hfit htarget schedule ⟨1, 0⟩ ⟨w, []⟩
      ⟨h1, h2, by simp [writes], by simp [writes]⟩
    obtain ⟨_, _, hpw, hle⟩ := hinv
    refine ⟨hpw, ?_⟩
    intro pre post hsplit
    unfold run at hsplit
    rw [hsplit] at hpw hle
    rw [List.pairwise_append] at hpw
    obtain ⟨_, hpost, hcross⟩ := hpw
    constructor
    · cases post with
      | nil => rfl
      | cons p post =>
        have hlt : fl.target < p := (List.pairwise_cons.mp hpost).1 p (by simp)
        have hp := (hle p (by simp)).2
        omega
    · intro hmem
      have := hcross fl.target hmem fl.target (by simp)
      omega

/-- Witness for C8 amended: every other health report carries a
PG_AVAILABILITY warning; eight ticks from 1000 to the target 1024 by steps of
10 write 1010, 1020, 1024.  And with the overflowing delta `2^63 - 2^11` every
write is still at most the target `2^20`. -/
theorem run_writes_strictly_increase_witness :
    ((0 : Int) < 10 ∧ (1024 : Int) - 1 + 10 ≤ maxInt64 ∧ (1024 : Int) ≤ 9007199254740992 ∧
      -9007199254740992 ≤ (1000 : Int) ∧ (1000 : Int) ≤ 9007199254740992) ∧
    writes (run simRuntime ⟨"data", 10, 1024, false⟩ "pg_num" (List.replicate 8 Select.ticker)
      ⟨⟨fun n => if n % 2 = 0 then mockHealthAvailWarnJSON else mockHealthOKJSON, 0,
        fun _ _ => 1000⟩, []⟩).2.trace = [1010, 1020, 1024] ∧
    List.Pairwise (fun a b => a < b)
      (writes (run simRuntime ⟨"data", 10, 1024, false⟩ "pg_num"
        (List.replicate 8 Select.ticker)
        ⟨⟨fun n => if n % 2 = 0 then mockHealthAvailWarnJSON else mockHealthOKJSON, 0,
          fun _ _ => 1000⟩, []⟩).2.trace) ∧
    ∀ n ∈ writes (run simRuntime ⟨"data", 9223372036854773760, 1048576, false⟩ "pg_num"
        [Select.ticker, Select.ticker, Select.ticker]
        ⟨Cluster.steady mockHealthOKJSON 8192, []⟩).2.trace, n ≤ 1048576 :=
  ⟨⟨by decide, by decide, by decide, by decide, by decide⟩, by decide,
    ((run_writes_strictly_increase ⟨"data", 10, 1024, false⟩ "pg_num"
      (List.replicate 8 Select.ticker)).2
      ⟨fun n => if n % 2 = 0 then mockHealthAvailWarnJSON else mockHealthOKJSON, 0,
        fun _ _ => 1000⟩
      (by decide) (by decide) (by decide) (by decide) (by decide)).1,
    (run_writes_strictly_increase ⟨"data", 9223372036854773760, 1048576, false⟩ "pg_num"
      [Select.ticker, Select.ticker, Select.ticker]).1 Json Cluster simRuntime
      (Cluster.steady mockHealthOKJSON 8192)⟩

theorem writes_stepEvents (pool pgType : String) (l : List Int) :
    writes ((l.map (stepEvents pool pgType)).flatten) = l := by
  induction l with
  | nil => rfl
  | cons n l ih => simp [stepEvents, writes, writes_append, ih]

theorem plannedWrites_succ (c target d : Int) (k : Nat) :
    plannedWrites c target d (k + 1)
      = min (c + d) target :: plannedWrites (c + d) target d k := by
  unfold plannedWrites
  rw [List.range_succ_eq_map]
  simp only [List.map_cons, List.map_map]
  congr 1
  · simp
  · apply List.map_congr_left
    intro i _
    simp only [Function.comp, Nat.succ_eq_add_one, Nat.cast_add, Nat.cast_one]
    congr 1
    ring

/-- Once the completion signal is buffered, the first `done` entry of the
schedule ends the loop, provided no tick and no signal comes before it. -/
theorem runLoop_receives {β σ : Type} (rt : Runtime β σ) (fl : Flags) (pgType : String)
    (post : List Select) (s : State σ) :
    ∀ pre : List Select, (∀ x ∈ pre, x = Select.done) →
      runLoop rt fl pgType (pre ++ Select.done :: post) ⟨1, 1⟩ s
        = (.returned, ⟨s.world, s.trace ++ [Event.recv]⟩) := by
  intro pre hpre
  cases pre with
  | nil => simp [runLoop]
  | cons x pre =>
    have hx : x = Select.done := hpre x (by simp)
    subst hx
    simp [runLoop]

/-- Once the stored value is at or above the target the loop writes nothing
more, whatever the schedule, the channel and the health reports are. -/
theorem sim_runLoop_idle (fl : Flags) (pgType : String) (schedule : List Select) :
    ∀ (done : Chan) (w : Cluster) (tr : List Event),
      -9007199254740992 ≤ w.value fl.pool pgType → w.value fl.pool pgType ≤ 9007199254740992 →
      w.value fl.pool pgType ≥ fl.target →
      ∃ b, (runLoop simRuntime fl pgType schedule done ⟨w, tr⟩).2.trace = tr ++ b ∧
        writes b = [] := by
  induction schedule with
  | nil => intro done w tr _ _ _; exact ⟨[], by simp [runLoop], rfl⟩
  | cons x rest ih =>
    intro done w tr h1 h2 hge
    cases x with
    | ticker =>
      cases hg : healthy simRuntime (w.report w.asked) with
      | none =>
        have hraise := sim_raise_fatal w tr fl.pool pgType fl.target fl.delta done hg
        exact ⟨[Event.exec Cmd.health], by simp only [runLoop, hraise], rfl⟩
      | some ok =>
        cases ok with
        | false =>
          have hraise := sim_raise_rejected w tr fl.pool pgType fl.target fl.delta done hg
          obtain ⟨b, hb, hwb⟩ := ih done { w with asked := w.asked + 1 }
            (tr ++ [Event.exec Cmd.health]) h1 h2 hge
          refine ⟨[Event.exec Cmd.health] ++ b, ?_, by simp [writes_append, writes, hwb]⟩
          simp only [runLoop, hraise, hb, List.append_assoc]
        | true =>
          have hraise := sim_raise_done w tr fl.pool pgType fl.target fl.delta done hg h1 h2 hge
          by_cases hroom : done.len < done.cap
          · rw [if_pos hroom] at hraise
            obtain ⟨b, hb, hwb⟩ := ih ⟨done.cap, done.len + 1⟩ { w with asked := w.asked + 1 }
              (tr ++ [Event.exec Cmd.health, Event.exec (Cmd.poolGet fl.pool pgType),
                Event.send]) h1 h2 hge
            refine ⟨[Event.exec Cmd.health, Event.exec (Cmd.poolGet fl.pool pgType),
              Event.send] ++ b, ?_, by simp [writes_append, writes, hwb]⟩
            simp only [runLoop, hraise, hb, List.append_assoc]
          · rw [if_neg hroom] at hraise
            exact ⟨[Event.exec Cmd.health, Event.exec (Cmd.poolGet fl.pool pgType)],
              by simp only [runLoop, hraise], rfl⟩
    | done =>
      by_cases hlen : 0 < done.len
      · exact ⟨[Event.recv], by simp only [runLoop, if_pos hlen], rfl⟩
      · obtain ⟨b, hb, hwb⟩ := ih done w tr h1 h2 hge
        exact ⟨b, by simp only [runLoop, if_neg hlen, hb], hwb⟩
    | signal => exact ⟨[], by simp [runLoop], rfl⟩

/-- A phase on an always healthy simulated cluster that is `m` writes away
from its target: the first `m + 1` ticks write the planned values and signal
completion, nothing is written afterwards, and when the `select` then takes the
`done` case the loop returns. -/
theorem sim_runLoop_converges (fl : Flags) (pgType : String) (rest : List Select)
    (hd : 0 < fl.delta) (htarget : fl.target ≤ 9007199254740992) :
    ∀ (pre : List Select) (m : Nat) (w : Cluster) (tr : List Event),
      (∀ n, healthy simRuntime (w.report n) = some true) →
      -9007199254740992 ≤ w.value fl.pool pgType → w.value fl.pool pgType ≤ 9007199254740992 →
      fl.target ≤ w.value fl.pool pgType + (m : Int) * fl.delta →
      (m ≠ 0 → w.value fl.pool pgType + ((m : Int) - 1) * fl.delta < fl.target ∧
        w.value fl.pool pgType + (m : Int) * fl.delta ≤ maxInt64) →
      (∀ x ∈ pre, x ≠ Select.signal) → pre.count Select.ticker = m + 1 →
      ∃ b, (runLoop simRuntime fl pgType (pre ++ rest) ⟨1, 0⟩ ⟨w, tr⟩).2.trace
          = tr ++ ((plannedWrites (w.value fl.pool pgType) fl.target fl.delta m).map
              (stepEvents fl.pool pgType)).flatten
            ++ [Event.exec Cmd.health, Event.exec (Cmd.poolGet fl.pool pgType), Event.send]
            ++ b ∧
        writes b = [] ∧
        (∀ post, rest = Select.done :: post →
          (runLoop simRuntime fl pgType (pre ++ rest) ⟨1, 0⟩ ⟨w, tr⟩).1 = RunResult.returned ∧
          b = [Event.recv]) := by
  intro pre
  induction pre with
  | nil => intro m w tr _ _ _ _ _ _ hcount; simp at hcount
  | cons x pre ih =>
    intro m w tr hhealthy h1 h2 hreach hbelow hsig hcount
    have hsig2 : ∀ x ∈ pre, x ≠ Select.signal := fun y hy => hsig y (by simp [hy])
    cases x with
    | signal => exact absurd rfl (hsig Select.signal (by simp))
    | done =>
      have hc : pre.count Select.ticker = m + 1 := by simpa using hcount
      have := ih m w tr hhealthy h1 h2 hreach hbelow hsig2 hc
      simpa [runLoop] using this
    | ticker =>
      have hc : pre.count Select.ticker = m := by simpa using hcount
      cases m with
      | zero =>
        have hge : w.value fl.pool pgType ≥ fl.target := by simpa using hreach
        have hdone : ∀ x ∈ pre, x = Select.done := by
          intro y hy
          cases y with
          | ticker => exact absurd (List.count_pos_iff.mpr hy) (by omega)
          | done => rfl
          | signal => exact absurd rfl (hsig2 _ hy)
        have hraise := sim_raise_done w tr fl.pool pgType fl.target fl.delta ⟨1, 0⟩
          (hhealthy _) h1 h2 hge
        rw [if_pos (by decide)] at hraise
        obtain ⟨b, hb, hwb⟩ := sim_runLoop_idle fl pgType (pre ++ rest) ⟨1, 1⟩
          { w with asked := w.asked + 1 }
          (tr ++ [Event.exec Cmd.health, Event.exec (Cmd.poolGet fl.pool pgType), Event.send])
          h1 h2 hge
        rw [List.cons_append, runLoop_ticker simRuntime fl pgType _ _ ⟨1, 1⟩ _ _ hraise]
        refine ⟨b, by simpa [plannedWrites] using hb, hwb, ?_⟩
        intro post hpost
        subst hpost
        have hrecv := runLoop_receives simRuntime fl pgType post
          (⟨{ w with asked := w.asked + 1 }, tr ++ [Event.exec Cmd.health,
            Event.exec (Cmd.poolGet fl.pool pgType), Event.send]⟩ : State Cluster) pre hdone
        rw [hrecv] at hb ⊢
        exact ⟨rfl, (List.append_cancel_left hb).symm⟩
      | succ m =>
        obtain ⟨hlow, hfit⟩ := hbelow (by omega)
        push_cast at hlow hfit hreach
        have hmd : 0 ≤ (m : Int) * fl.delta := mul_nonneg (by omega) (le_of_lt hd)
        have hlt : w.value fl.pool pgType < fl.target := by linarith
        have hraise := sim_raise_step w tr fl.pool pgType fl.target fl.delta ⟨1, 0⟩
          (hhealthy _) h1 h2 hlt
        have hwrap : wrapInt64 (w.value fl.pool pgType + fl.delta)
            = w.value fl.pool pgType + fl.delta :=
          wrapInt64_of_range _ (by unfold minInt64; omega) (by linarith)
        rw [hwrap] at hraise
        have hmin : (if w.value fl.pool pgType + fl.delta > fl.target then fl.target
            else w.value fl.pool pgType + fl.delta)
              = min (w.value fl.pool pgType + fl.delta) fl.target := by
          split_ifs with h
          · exact (min_eq_right (le_of_lt h)).symm
          · exact (min_eq_left (not_lt.mp h)).symm
        rw [hmin] at hraise
        have hplan : plannedWrites (min (w.value fl.pool pgType + fl.delta) fl.target)
              fl.target fl.delta m
            = plannedWrites (w.value fl.pool pgType + fl.delta) fl.target fl.delta m := by
          cases m with
          | zero => rfl
          | succ m' =>
            have hm' : 0 ≤ (m' : Int) * fl.delta := mul_nonneg (by omega) (le_of_lt hd)
            push_cast at hlow
            rw [min_eq_left (by linarith)]
        have hval : (w.afterWrite fl.pool pgType
            (min (w.value fl.pool pgType + fl.delta) fl.target)).value fl.pool pgType
              = min (w.value fl.pool pgType + fl.delta) fl.target := by
          simp [Cluster.afterWrite]
        have hminle : min (w.value fl.pool pgType + fl.delta) fl.target ≤ fl.target :=
          min_le_right _ _
        have hlemin : w.value fl.pool pgType
            ≤ min (w.value fl.pool pgType + fl.delta) fl.target :=
          le_min (by omega) (le_of_lt hlt)
        obtain ⟨b, hb, hwb, hret⟩ := ih m
          (w.afterWrite fl.pool pgType (min (w.value fl.pool pgType + fl.delta) fl.target))
          (tr ++ stepEvents fl.pool pgType (min (w.value fl.pool pgType + fl.delta) fl.target))
          hhealthy
          (by rw [hval]; omega)
          (by rw [hval]; omega)
          (by
            rw [hval]
            rcases min_choice (w.value fl.pool pgType + fl.delta) fl.target with h | h
            · rw [h]; linarith
            · rw [h]; linarith)
          (by
            intro hm
            rw [hval]
            have hone : (1 : Int) ≤ (m : Int) := by omega
            have hmd1 : 0 ≤ ((m : Int) - 1) * fl.delta :=
              mul_nonneg (by omega) (le_of_lt hd)
            rw [min_eq_left (by linarith)]
            constructor <;> linarith)
          hsig2 hc
        rw [hval, hplan] at hb
        rw [List.cons_append, runLoop_ticker simRuntime fl pgType _ _ _ _ _ hraise]
        refine ⟨b, ?_, hwb, hret⟩
        rw [plannedWrites_succ]
        simpa [stepEvents] using hb

/-- What `ceil ((target - c) / d)` means for a start value below the target. -/
theorem stepsNeeded_spec (c target d : Int) (hlt : c < target) (hd : 0 < d) :
    stepsNeeded c target d ≠ 0 ∧
      target ≤ c + (stepsNeeded c target d : Int) * d ∧
      c + ((stepsNeeded c target d : Int) - 1) * d < target := by
  have hdq : (0 : ℚ) < (d : ℚ) := by exact_mod_cast hd
  have hxpos : (0 : ℚ) < ((target - c : Int) : ℚ) / (d : ℚ) :=
    div_pos (by exact_mod_cast (show (0 : Int) < target - c by omega)) hdq
  have hkpos : 0 < ⌈((target - c : Int) : ℚ) / (d : ℚ)⌉ := Int.ceil_pos.mpr hxpos
  have hk : ((stepsNeeded c target d : Nat) : Int) = ⌈((target - c : Int) : ℚ) / (d : ℚ)⌉ :=
    Int.toNat_of_nonneg (le_of_lt hkpos)
  refine ⟨?_, ?_, ?_⟩
  · intro h0
    rw [h0] at hk
    simp only [Nat.cast_zero] at hk
    omega
  · have hle : ((target - c : Int) : ℚ) / (d : ℚ) ≤ ((stepsNeeded c target d : Int) : ℚ) := by
      rw [hk]
      exact Int.le_ceil _
    rw [div_le_iff₀ hdq] at hle
    have hle2 : target - c ≤ (stepsNeeded c target d : Int) * d := by exact_mod_cast hle
    omega
  · have hlt1 : (((stepsNeeded c target d : Int) - 1 : Int) : ℚ)
        < ((target - c : Int) : ℚ) / (d : ℚ) := by
      apply Int.lt_ceil.mp
      rw [hk]
      omega
    rw [lt_div_iff₀ hdq] at hlt1
    have hlt2 : ((stepsNeeded c target d : Int) - 1) * d < target - c := by exact_mod_cast hlt1
    omega

/-- The number of steps is the only `k` with `c + (k - 1) * d < target ≤ c + k * d`. -/
theorem stepsNeeded_unique (c target d : Int) (k : Nat) (hlt : c < target) (hd : 0 < d)
    (h1 : target ≤ c + (k : Int) * d) (h2 : c + ((k : Int) - 1) * d < target) :
    stepsNeeded c target d = k := by
  obtain ⟨_, h3, h4⟩ := stepsNeeded_spec c target d hlt hd
  have ha : ((stepsNeeded c target d : Int) - 1) * d < (k : Int) * d := by linarith
  have hb : ((k : Int) - 1) * d < (stepsNeeded c target d : Int) * d := by linarith
  have ha2 := lt_of_mul_lt_mul_right ha (le_of_lt hd)
  have hb2 := lt_of_mul_lt_mul_right hb (le_of_lt hd)
  omega

/-- C10, as stated, fails: a start value below the target and a positive step
are not enough.  The addition is made in `int64`: with start 10, target 1024
and step `2^63 - 1` the number `ceil ((target - c) / d)` is 1 and the one write
should be 1024, but the ticks write `-2^63 + 9`, then `-1`, and only then 1024.
And the value read goes through a `float64`: with start `2^54 - 4`, target
`2^54` and step 1 every tick reads `2^54 - 4` and writes `2^54 - 3` again, and
the phase never signals completion. -/
theorem run_misses_plan_on_overflow :
    (¬ ∀ (w : Cluster) (fl : Flags) (pgType : String),
        (∀ n, healthy simRuntime (w.report n) = some true) →
        minInt64 ≤ w.value fl.pool pgType → w.value fl.pool pgType < fl.target →
        0 < fl.delta → fl.delta ≤ maxInt64 → fl.target ≤ maxInt64 →
        writes (run simRuntime fl pgType
            (List.replicate (stepsNeeded (w.value fl.pool pgType) fl.target fl.delta + 1)
              Select.ticker ++ [Select.done]) ⟨w, []⟩).2.trace
          = plannedWrites (w.value fl.pool pgType) fl.target fl.delta
              (stepsNeeded (w.value fl.pool pgType) fl.target fl.delta)) ∧
    (stepsNeeded 10 1024 9223372036854775807 = 1 ∧
      writes (run simRuntime ⟨"data", 9223372036854775807, 1024, false⟩ "pg_num"
          (List.replicate 4 Select.ticker ++ [Select.done])
          ⟨Cluster.steady mockHealthOKJSON 10, []⟩).2.trace
        = [-9223372036854775799, -1, 1024]) ∧
    (stepsNeeded 18014398509481980 18014398509481984 1 = 4 ∧
      (run simRuntime ⟨"data", 1, 18014398509481984, false⟩ "pg_num"
          (List.replicate 6 Select.ticker ++ [Select.done])
          ⟨Cluster.steady mockHealthOKJSON 18014398509481980, []⟩).1 = RunResult.waiting ∧
      (run simRuntime ⟨"data", 1, 18014398509481984, false⟩ "pg_num"
          (List.replicate 6 Select.ticker ++ [Select.done])
          ⟨Cluster.steady mockHealthOKJSON 18014398509481980, []⟩).2.trace
        = (List.replicate 6 (stepEvents "data" "pg_num" 18014398509481981)).flatten) := by
  have hk : stepsNeeded 10 1024 9223372036854775807 = 1 :=
    stepsNeeded_unique 10 1024 9223372036854775807 1 (by decide) (by decide)
      (by decide) (by decide)
  have hk2 : stepsNeeded 18014398509481980 18014398509481984 1 = 4 :=
    stepsNeeded_unique 18014398509481980 18014398509481984 1 4 (by decide) (by decide)
      (by decide) (by decide)
  refine ⟨?_, ⟨hk, by decide⟩, ⟨hk2, by decide, by decide⟩⟩
  intro h
  have hbad := h (Cluster.steady mockHealthOKJSON 10)
    ⟨"data", 9223372036854775807, 1024, false⟩
    "pg_num" (fun _ => rfl) (by decide) (by decide) (by decide) (by decide) (by decide)
  simp only [Cluster.steady] at hbad
  rw [hk] at hbad
  exact absurd hbad (by decide)

/-- C10, amended. End-to-end convergence where the arithmetic is exact: for
every start value `c` with `-2^53 ≤ c < target`, every target of at most `2^53`
(so that every value read is exact in `float64`) and every positive step `d`
with `c + ceil ((target - c) / d) * d` within the `int64` range (so that no
addition overflows), with the cluster always healthy and reads returning the
last written value, a phase whose `select` takes the ticker case
`ceil ((target - c) / d) + 1` times and then the `done` case returns; it issues
exactly `ceil ((target - c) / d)` writes, the write number `i` being
`min (c + i * d) target`, each followed by the settle pause; the last write is
`target`, and the last tick signals completion without writing.  Whatever the
`select` takes after these ticks, the trace starts with the planned writes and
the signal, and nothing more is written. -/
theorem run_converges (w : Cluster) (fl : Flags) (pgType : String) (pre post : List Select)
    (hhealthy : ∀ n, healthy simRuntime (w.report n) = some true)
    (hmin : -9007199254740992 ≤ w.value fl.pool pgType)
    (hlt : w.value fl.pool pgType < fl.target)
    (htarget : fl.target ≤ 9007199254740992) (hd : 0 < fl.delta)
    (hfit : w.value fl.pool pgType
      + (stepsNeeded (w.value fl.pool pgType) fl.target fl.delta : Int) * fl.delta ≤ maxInt64)
    (hsig : ∀ x ∈ pre, x ≠ Select.signal)
    (hticks : pre.count Select.ticker
      = stepsNeeded (w.value fl.pool pgType) fl.target fl.delta + 1) :
    (run simRuntime fl pgType (pre ++ Select.done :: post) ⟨w, []⟩).1 = RunResult.returned ∧
      (run simRuntime fl pgType (pre ++ Select.done :: post) ⟨w, []⟩).2.trace
        = ((plannedWrites (w.value fl.pool pgType) fl.target fl.delta
              (stepsNeeded (w.value fl.pool pgType) fl.target fl.delta)).map
            (stepEvents fl.pool pgType)).flatten
          ++ [Event.exec Cmd.health, Event.exec (Cmd.poolGet fl.pool pgType),
            Event.send, Event.recv] ∧
      writes (run simRuntime fl pgType (pre ++ Select.done :: post) ⟨w, []⟩).2.trace
        = plannedWrites (w.value fl.pool pgType) fl.target fl.delta
            (stepsNeeded (w.value fl.pool pgType) fl.target fl.delta) ∧
      (writes (run simRuntime fl pgType (pre ++ Select.done :: post) ⟨w, []⟩).2.trace).length
        = stepsNeeded (w.value fl.pool pgType) fl.target fl.delta ∧
      (writes (run simRuntime fl pgType (pre ++ Select.done :: post) ⟨w, []⟩).2.trace).getLast?
        = some fl.target ∧
      (∀ rest : List Select,
        writes (run simRuntime fl pgType (pre ++ rest) ⟨w, []⟩).2.trace
          = plannedWrites (w.value fl.pool pgType) fl.target fl.delta
              (stepsNeeded (w.value fl.pool pgType) fl.target fl.delta) ∧
        ∃ b, (run simRuntime fl pgType (pre ++ rest) ⟨w, []⟩).2.trace
            = ((plannedWrites (w.value fl.pool pgType) fl.target fl.delta
                  (stepsNeeded (w.value fl.pool pgType) fl.target fl.delta)).map
                (stepEvents fl.pool pgType)).flatten
              ++ [Event.exec Cmd.health, Event.exec (Cmd.poolGet fl.pool pgType), Event.send]
              ++ b ∧
          writes b = []) := by
  obtain ⟨hk0, hreach, hbelow⟩ :=
    stepsNeeded_spec (w.value fl.pool pgType) fl.target fl.delta hlt hd
  have hkd : 0 ≤ (stepsNeeded (w.value fl.pool pgType) fl.target fl.delta : Int) * fl.delta :=
    mul_nonneg (by omega) (le_of_lt hd)
  have hall : ∀ rest : List Select,
      writes (run simRuntime fl pgType (pre ++ rest) ⟨w, []⟩).2.trace
        = plannedWrites (w.value fl.pool pgType) fl.target fl.delta
            (stepsNeeded (w.value fl.pool pgType) fl.target fl.delta) ∧
      ∃ b, (run simRuntime fl pgType (pre ++ rest) ⟨w, []⟩).2.trace
          = ((plannedWrites (w.value fl.pool pgType) fl.target fl.delta
                (stepsNeeded (w.value fl.pool pgType) fl.target fl.delta)).map
              (stepEvents fl.pool pgType)).flatten
            ++ [Event.exec Cmd.health, Event.exec (Cmd.poolGet fl.pool pgType), Event.send]
            ++ b ∧
        writes b = [] := by
    intro rest
    obtain ⟨b, hb, hwb, _⟩ := sim_runLoop_converges fl pgType rest hd htarget pre
      (stepsNeeded (w.value fl.pool pgType) fl.target fl.delta) w [] hhealthy hmin
      (by omega) hreach (fun _ => ⟨hbelow, hfit⟩) hsig hticks
    simp only [List.nil_append] at hb
    refine ⟨?_, b, hb, hwb⟩
    unfold run
    rw [hb, writes_append, writes_append, writes_stepEvents, hwb]
    simp [writes]
  obtain ⟨b, hb, _, hret⟩ := sim_runLoop_converges fl pgType (Select.done :: post) hd htarget
    pre (stepsNeeded (w.value fl.pool pgType) fl.target fl.delta) w [] hhealthy hmin
    (by omega) hreach (fun _ => ⟨hbelow, hfit⟩) hsig hticks
  obtain ⟨hres, hb1⟩ := hret post rfl
  subst hb1
  simp only [List.nil_append, List.append_assoc, List.cons_append] at hb
  have hwrites := (hall (Select.done :: post)).1
  refine ⟨hres, hb, hwrites, ?_, ?_, hall⟩
  · rw [hwrites]
    simp [plannedWrites]
  · rw [hwrites]
    obtain ⟨k, hk⟩ := Nat.exists_eq_succ_of_ne_zero hk0
    rw [hk] at hreach ⊢
    unfold plannedWrites
    rw [List.range_succ, List.map_append, List.getLast?_append]
    simp only [List.map_cons, List.map_nil, List.getLast?_singleton]
    push_cast at hreach ⊢
    rw [min_eq_right hreach]
    rfl

/-- Witness for C10 amended: the scenario of the spec.  From 1000 to the
target 1024 by steps of 10 on an always healthy cluster the phase writes 1010,
1020, 1024 and then signals DONE. -/
theorem run_converges_witness :
    ((1000 : Int) < 1024 ∧ (0 : Int) < 10 ∧ stepsNeeded 1000 1024 10 = 3) ∧
    (run simRuntime ⟨"data", 10, 1024, false⟩ "pg_num"
        (List.replicate 4 Select.ticker ++ Select.done :: [])
        ⟨Cluster.steady mockHealthOKJSON 1000, []⟩).1 = RunResult.returned ∧
    writes (run simRuntime ⟨"data", 10, 1024, false⟩ "pg_num"
        (List.replicate 4 Select.ticker ++ Select.done :: [])
        ⟨Cluster.steady mockHealthOKJSON 1000, []⟩).2.trace = [1010, 1020, 1024] := by
  have hk : stepsNeeded 1000 1024 10 = 3 :=
    stepsNeeded_unique 1000 1024 10 3 (by decide) (by decide) (by decide) (by decide)
  have h := run_converges (Cluster.steady mockHealthOKJSON 1000) ⟨"data", 10, 1024, false⟩
    "pg_num" (List.replicate 4 Select.ticker) [] (fun _ => rfl) (by decide) (by decide)
    (by decide) (by decide)
    (by
      show (1000 : Int) + (stepsNeeded 1000 1024 10 : Int) * 10 ≤ maxInt64
      rw [hk]
      decide)
    (by decide)
    (by
      show (List.replicate 4 Select.ticker).count Select.ticker = stepsNeeded 1000 1024 10 + 1
      rw [hk]
      decide)
  refine ⟨⟨by decide, by decide, hk⟩, h.1, ?_⟩
  rw [h.2.2.1]
  show plannedWrites 1000 1024 10 (stepsNeeded 1000 1024 10) = [1010, 1020, 1024]
  rw [hk]
  decide

end Cpr
